import Mathlib

/-!
Verification of the mortgage-statement field-extraction core
(`mortgage_parser.py`) against its natural-language specification.

The Python code is shallowly embedded:

* Python `float` values are modelled as exact decimals (`PyFloat`): an
  integer mantissa scaled by a power of ten.  All values appearing in the
  program (parsed decimal literals, document totals, rendered amounts) are
  finite decimals, so this is faithful for every behaviour the claims
  mention, while keeping every operation kernel-computable.
* Python values of unknown shape (custom-field values) are `PyVal`.
* `dict`s with a fixed key set are structures; the `dates` dictionary is an
  association list so that its key set is an observable property.
* Exceptions are modelled with `Option`: a function that can raise returns
  `none` in exactly the raising cases.
* The regular-expression searches of the source are embedded as dedicated
  matchers (one per pattern) driven by a leftmost-search combinator,
  mirroring `re.search` semantics (leftmost match, greedy with
  backtracking) for those specific patterns.
* String primitives (`str.lower`, `str.strip`, `str.title`, `in`,
  `float(...)`, `str(float)`, format specs) are modelled for their ASCII /
  finite-decimal fragment, which covers everything the program and the
  claims exercise.  `float()` parsing models decimal literals with optional
  sign, point and exponent; the `inf`/`nan` words and digit-group
  underscores accepted by Python are outside the decimal model and omitted.
-/

/-- Python whitespace (the ASCII part of `str.isspace` / regex `\s` /
the characters stripped by `float()` and `str.strip()`). -/
def pySpace (c : Char) : Bool :=
  c = ' ' || c = '\t' || c = '\n' || c = '\r' || c = Char.ofNat 11 || c = Char.ofNat 12

/-- Characters matched by the regex class `[:\s]`. -/
def colonSpace (c : Char) : Bool :=
  c = ':' || pySpace c

/-- ASCII uppercase test (stated over `Char.toNat` to keep proofs at the
`Nat` level). -/
def isUpperAscii (c : Char) : Bool :=
  65 ≤ c.toNat && c.toNat ≤ 90

/-- Python `str.lower` on a list of characters (ASCII fragment); core
`Char.toLower` is exactly Python's per-character ASCII lowering. -/
def pyLower (s : List Char) : List Char :=
  s.map Char.toLower

/-- Python `str.strip()` (also the whitespace stripping `float()` performs
on its argument). -/
def pyStrip (s : List Char) : List Char :=
  ((s.dropWhile pySpace).reverse.dropWhile pySpace).reverse

/-- Python substring membership `needle in hay`. -/
def containsSub : List Char → List Char → Bool
  | l, n =>
    match l with
    | [] => n.isEmpty
    | _ :: t => n.isPrefixOf l || containsSub t n

/-- Numeric value of a list of decimal digit characters. -/
def digitsToNat (ds : List Char) : Nat :=
  ds.foldl (fun a c => 10 * a + (c.toNat - 48)) 0

/-- Longest prefix of decimal digits together with the rest of the input. -/
def takeDigits : List Char → List Char × List Char
  | [] => ([], [])
  | c :: cs =>
    if c.isDigit then
      let (d, r) := takeDigits cs
      (c :: d, r)
    else ([], c :: cs)

/-- A Python `float`, modelled as the exact decimal `mant / 10 ^ exp`.
Every float the program manipulates is a finite decimal, so this carries
exactly the observable content of the Python value. -/
structure PyFloat where
  mant : Int
  exp : Nat
deriving DecidableEq, Repr

/-- Rational value denoted by a `PyFloat` (used only in specifications). -/
def PyFloat.toRat (d : PyFloat) : ℚ :=
  (d.mant : ℚ) / 10 ^ d.exp

/-- Strip factors of ten from the mantissa (canonical form, mirroring the
fact that a Python float does not remember trailing zeros of its literal).
Structural recursion on the exponent. -/
def canonAux : Int → Nat → PyFloat
  | m, 0 => ⟨m, 0⟩
  | m, e + 1 => if m % 10 = 0 then canonAux (m / 10) e else ⟨m, e + 1⟩

/-- Canonical form of a `PyFloat`. -/
def PyFloat.canon (d : PyFloat) : PyFloat :=
  canonAux d.mant d.exp

/-- Python truthiness of a float (`bool(x)`): nonzero. -/
def PyFloat.truthy (d : PyFloat) : Bool :=
  d.mant ≠ 0

/-- Python `x > 0` for a float. -/
def PyFloat.pos (d : PyFloat) : Bool :=
  0 < d.mant

/-- Build the float `sign * (ip . fp) * 10 ^ ex` from sign, integer-part
digits, fraction-part digits and decimal exponent. -/
def pyFloatOfParts (neg : Bool) (ip fp : List Char) (ex : Int) : PyFloat :=
  let m : Int := (digitsToNat ip * 10 ^ fp.length + digitsToNat fp : Nat)
  let m := if neg then -m else m
  let e : Int := (fp.length : Int) - ex
  if 0 ≤ e then PyFloat.canon ⟨m, e.toNat⟩
  else PyFloat.canon ⟨m * 10 ^ (-e).toNat, 0⟩

/-- Exponent suffix of a float literal: `[eE][+-]?digits`, which must
consume the whole remaining input.  Returns the signed exponent. -/
def parseExpPart : List Char → Option Int
  | [] => some 0
  | c :: cs =>
    if c = 'e' || c = 'E' then
      let sc : Bool × List Char :=
        match cs with
        | c2 :: t =>
          if c2 = '+' then (false, t)
          else if c2 = '-' then (true, t)
          else (false, c2 :: t)
        | [] => (false, [])
      let p := takeDigits sc.2
      if p.1 = [] || p.2 ≠ [] then none
      else some (if sc.1 then -(digitsToNat p.1 : Int) else (digitsToNat p.1 : Int))
    else none

/-- Body of a float literal after the optional sign: digits, optional
point, optional digits, optional exponent. -/
def parseFloatBody (neg : Bool) (s : List Char) : Option PyFloat :=
  let (ip, r1) := takeDigits s
  match r1 with
  | c :: r2 =>
    if c = '.' then
      let (fp, r3) := takeDigits r2
      if ip = [] && fp = [] then none
      else (parseExpPart r3).map (pyFloatOfParts neg ip fp)
    else if ip = [] then none
    else (parseExpPart (c :: r2)).map (pyFloatOfParts neg ip [])
  | [] =>
    if ip = [] then none
    else (parseExpPart []).map (pyFloatOfParts neg ip [])

/-- Python `float(s)` on a list of characters: strips surrounding
whitespace, accepts an optional sign, then a decimal literal.  `none`
models a raised `ValueError`. -/
def pyFloatChars (s : List Char) : Option PyFloat :=
  match pyStrip s with
  | c :: t =>
    if c = '-' then parseFloatBody true t
    else if c = '+' then parseFloatBody false t
    else parseFloatBody false (c :: t)
  | [] => parseFloatBody false []

/-- Grammar of the exponent suffix accepted by `float()` at the end of a
literal: `[eE]`, an optional sign, then at least one digit. -/
def isFloatTail : List Char → Bool
  | [] => true
  | c :: cs =>
    (c = 'e' || c = 'E') &&
      (let cs' : List Char :=
        match cs with
        | c2 :: t => if c2 = '+' then t else if c2 = '-' then t else c2 :: t
        | [] => []
       decide (cs' ≠ []) && cs'.all Char.isDigit)

/-- Grammar of the body of a `float()` literal after the optional sign:
digits with an optional point and fraction, or a point with fraction,
then an optional exponent suffix. -/
def isFloatBody (l : List Char) : Bool :=
  let p := takeDigits l
  match p.2 with
  | c :: r2 =>
    if c = '.' then
      let q := takeDigits r2
      (decide (p.1 ≠ []) || decide (q.1 ≠ [])) && isFloatTail q.2
    else decide (p.1 ≠ []) && isFloatTail (c :: r2)
  | [] => decide (p.1 ≠ [])

/-- Grammar of a full `float()` literal (after whitespace stripping):
an optional sign then a float body.  The decimal-numeral language the
coercion accepts, stated independently of the parser's result values. -/
def isPyFloatLit : List Char → Bool
  | c :: t =>
    if c = '-' then isFloatBody t
    else if c = '+' then isFloatBody t
    else isFloatBody (c :: t)
  | [] => false

/-- A loosely typed Python value as stored in a custom field. -/
inductive PyVal where
  | none
  | num (d : PyFloat)
  | str (s : String)
deriving DecidableEq, Repr

/-- Python truthiness of a `PyVal`. -/
def PyVal.truthy : PyVal → Bool
  | .none => false
  | .num d => d.truthy
  | .str s => s ≠ ""

/-- Decimal digit characters of a natural number (via `Nat.toDigits`). -/
def natDigits (n : Nat) : List Char :=
  Nat.toDigits 10 n

/-- Fraction digits of `frac / 10 ^ e`, zero-padded on the left to `e`
digits. -/
def fracDigits (e frac : Nat) : List Char :=
  let ds := natDigits frac
  List.replicate (e - ds.length) '0' ++ ds

/-- Python `str(x)` for a float, restricted to the plain positional form
(no scientific notation, which the program's values never need): integer
part, a point, and the fraction digits (`".0"` when the value is
integral). -/
def pyStrFloat (d : PyFloat) : String :=
  let c := d.canon
  let sign := if c.mant < 0 then "-" else ""
  let a := c.mant.natAbs
  if c.exp = 0 then
    sign ++ String.mk (natDigits a) ++ ".0"
  else
    sign ++ String.mk (natDigits (a / 10 ^ c.exp)) ++ "." ++
      String.mk (fracDigits c.exp (a % 10 ^ c.exp))

/-- Python `str(x)` of a `PyVal`. -/
def pyStrVal : PyVal → String
  | .none => "None"
  | .num d => pyStrFloat d
  | .str s => s

/-- Match a literal string at the start of the input, returning the rest. -/
def matchLit : List Char → List Char → Option (List Char)
  | [], s => some s
  | _ :: _, [] => Option.none
  | p :: ps, c :: cs => if p = c then matchLit ps cs else Option.none

/-- The semantics of `re.search`: try the pattern matcher at every
position from the left and return the first success. -/
def reSearch (m : List Char → Option (List Char)) : List Char → Option (List Char)
  | [] => m []
  | c :: cs =>
    match m (c :: cs) with
    | some r => some r
    | Option.none => reSearch m cs

/-- Matcher for the APR patterns `kw[:\s]+(\d+\.?\d*)\s*%?` at the start
of the input; returns capture group 1.  The trailing `\s*%?` always
succeeds and does not affect the capture.  Greedy matching needs no
backtracking here: each quantified class is disjoint from what follows. -/
def matchAprAt (kw : List Char) (s : List Char) : Option (List Char) :=
  match matchLit kw s with
  | Option.none => Option.none
  | some r1 =>
    let (sep, r2) := r1.span colonSpace
    if sep = [] then Option.none
    else
      let (ds, r3) := takeDigits r2
      if ds = [] then Option.none
      else
        match r3 with
        | '.' :: r4 => some (ds ++ '.' :: (takeDigits r4).1)
        | _ => some ds

/-- Matcher for `(\d+)\s*year\s*(?:fixed|term|loan)?`; returns the whole
match (group 0), which is what `_extract_loan_terms` uses. -/
def matchTermYearAt (s : List Char) : Option (List Char) :=
  let (ds, r1) := takeDigits s
  if ds = [] then Option.none
  else
    let (w1, r2) := r1.span pySpace
    match matchLit "year".data r2 with
    | Option.none => Option.none
    | some r3 =>
      let (w2, r4) := r3.span pySpace
      let stem := ds ++ w1 ++ "year".data ++ w2
      if (matchLit "fixed".data r4).isSome then some (stem ++ "fixed".data)
      else if (matchLit "term".data r4).isSome then some (stem ++ "term".data)
      else if (matchLit "loan".data r4).isSome then some (stem ++ "loan".data)
      else some stem

/-- Matcher for `(\d+)\s*month\s*(?:term|loan)?` (group 0). -/
def matchTermMonthAt (s : List Char) : Option (List Char) :=
  let (ds, r1) := takeDigits s
  if ds = [] then Option.none
  else
    let (w1, r2) := r1.span pySpace
    match matchLit "month".data r2 with
    | Option.none => Option.none
    | some r3 =>
      let (w2, r4) := r3.span pySpace
      let stem := ds ++ w1 ++ "month".data ++ w2
      if (matchLit "term".data r4).isSome then some (stem ++ "term".data)
      else if (matchLit "loan".data r4).isSome then some (stem ++ "loan".data)
      else some stem

/-- Matcher for `loan term[:\s]+(\d+\s*(?:year|month)s?)` (group 0). -/
def matchTermExplicitAt (s : List Char) : Option (List Char) :=
  match matchLit "loan term".data s with
  | Option.none => Option.none
  | some r1 =>
    let (sep, r2) := r1.span colonSpace
    if sep = [] then Option.none
    else
      let (ds, r3) := takeDigits r2
      if ds = [] then Option.none
      else
        let (w, r4) := r3.span pySpace
        let units : Option (List Char × List Char) :=
          match matchLit "year".data r4 with
          | some r5 => some ("year".data, r5)
          | Option.none =>
            match matchLit "month".data r4 with
            | some r5 => some ("month".data, r5)
            | Option.none => Option.none
        match units with
        | Option.none => Option.none
        | some (u, r5) =>
          let sOpt : List Char := match r5 with | 's' :: _ => ['s'] | _ => []
          some ("loan term".data ++ sep ++ ds ++ w ++ u ++ sOpt)

/-- The capture `([^\n]+(?:\n[^\n]+)?)` of the property-address pattern,
tried at a fixed position. -/
def addrCapture (rest : List Char) : Option (List Char) :=
  let (l1, r4) := rest.span (fun c => c ≠ '\n')
  if l1 = [] then Option.none
  else
    match r4 with
    | '\n' :: r5 =>
      let (l2, _) := r5.span (fun c => c ≠ '\n')
      if l2 = [] then some l1 else some (l1 ++ '\n' :: l2)
    | _ => some l1

/-- Backtracking of the greedy `[:\s]+` before the capture: when the
capture fails (which, the separator class containing the newline, only
happens at end of input), `re` gives separator characters back one at a
time — keeping at least one — and retries the capture there.  `given`
holds the consumed separator run, last character first. -/
def addrTailBack : List Char → List Char → Option (List Char)
  | g1 :: g2 :: gs, rest =>
    match addrCapture rest with
    | some cap => some cap
    | Option.none => addrTailBack (g2 :: gs) (g1 :: rest)
  | _, rest => addrCapture rest

/-- Tail of the property-address pattern: `[:\s]+` then the capture,
with the greedy separator run backtracking into the capture as `re`
does; returns capture group 1. -/
def matchAddrTail (r2 : List Char) : Option (List Char) :=
  let (sep, r3) := r2.span colonSpace
  if sep = [] then Option.none
  else addrTailBack sep.reverse r3

/-- Matcher for `property(?:\s+address)?[:\s]+([^\n]+(?:\n[^\n]+)?)`
(group 1).  The optional `(?:\s+address)` group backtracks: if taking it
makes the tail fail, the match is retried without it, as `re` does. -/
def matchAddrAt (s : List Char) : Option (List Char) :=
  match matchLit "property".data s with
  | Option.none => Option.none
  | some r1 =>
    let withOpt : Option (List Char) :=
      let (w, ra) := r1.span pySpace
      if w = [] then Option.none
      else
        match matchLit "address".data ra with
        | some rb => matchAddrTail rb
        | Option.none => Option.none
    match withOpt with
    | some cap => some cap
    | Option.none => matchAddrTail r1

/-- Take at most `k` leading characters satisfying `p`. -/
def takeUpTo : Nat → (Char → Bool) → List Char → List Char × List Char
  | 0, _, s => ([], s)
  | _ + 1, _, [] => ([], [])
  | k + 1, p, c :: cs =>
    if p c then
      let (a, b) := takeUpTo k p cs
      (c :: a, b)
    else ([], c :: cs)

/-- The regex class of a dash or a forward slash. -/
def dashSlash (c : Char) : Bool :=
  c = '-' || c = '/'

/-- Matcher for the date token `\d{1,2}`, dash-or-slash, `\d{1,2}`, dash-or-slash, `\d{2,4}` (the whole
token).  `\d{1,2}` needs no backtracking before the separator class:
dropping the second digit would leave a digit, which the separator class
rejects anyway. -/
def matchDateTok (s : List Char) : Option (List Char) :=
  let (d1, r1) := takeUpTo 2 Char.isDigit s
  if d1 = [] then Option.none
  else
    match r1 with
    | c1 :: r2 =>
      if dashSlash c1 then
        let (d2, r3) := takeUpTo 2 Char.isDigit r2
        if d2 = [] then Option.none
        else
          match r3 with
          | c2 :: r4 =>
            if dashSlash c2 then
              let (d3, _) := takeUpTo 4 Char.isDigit r4
              if d3.length < 2 then Option.none
              else some (d1 ++ c1 :: (d2 ++ c2 :: d3))
            else Option.none
          | [] => Option.none
      else Option.none
    | [] => Option.none

/-- Separator-then-date tail: `[:\s]+` then the captured date token. -/
def matchDateSepTok (r : List Char) : Option (List Char) :=
  let (sep, r2) := r.span colonSpace
  if sep = [] then Option.none else matchDateTok r2

/-- Matcher for `payment date` followed by separator and date token
(group 1). -/
def matchPaymentDateAt (s : List Char) : Option (List Char) :=
  match matchLit "payment date".data s with
  | some r => matchDateSepTok r
  | Option.none => Option.none

/-- Matcher for `(?:loan|origination) date[:\s]+(...)` (group 1).  The two
alternatives start with different characters, so trying the two literal
spellings in order is exactly the alternation's semantics. -/
def matchOriginDateAt (s : List Char) : Option (List Char) :=
  match matchLit "loan date".data s with
  | some r => matchDateSepTok r
  | Option.none =>
    match matchLit "origination date".data s with
    | some r => matchDateSepTok r
    | Option.none => Option.none

/-- A vendor / bill-to sub-record of the document response (spec data
model: an optional record with at least `name` and `address`).  The
source's `if vendor:` dict-truthiness test is modelled as presence of the
sub-record. -/
structure Vendor where
  name : Option String := Option.none
  address : Option String := Option.none
deriving DecidableEq, Repr

/-- One line item: `{description: string, total: optional number}`. -/
structure LineItem where
  description : String := ""
  total : Option PyFloat := Option.none
deriving DecidableEq, Repr

/-- One custom field: `{name: string, value: any}`. -/
structure CustomField where
  name : String := ""
  value : PyVal := PyVal.none
deriving DecidableEq, Repr

/-- The document-understanding response (spec `DocumentResponse`; the
source reads it with `response.get(...)`, so every field is optional, with
`''` / `[]` defaults exactly as the source supplies them). -/
structure DocumentResponse where
  ocr_text : String := ""
  line_items : List LineItem := []
  custom_fields : List CustomField := []
  vendor : Option Vendor := Option.none
  bill_to : Option Vendor := Option.none
  total : Option PyFloat := Option.none
  date : Option String := Option.none
  due_date : Option String := Option.none
  confidence : Option PyFloat := Option.none
  document_type : Option String := Option.none
deriving DecidableEq, Repr

/-- Line-item predicate of `_extract_loan_amount`: lowered description
contains `"original loan"` or `"loan amount"`. -/
def loanItemMatch (it : LineItem) : Bool :=
  let d := pyLower it.description.data
  containsSub d "original loan".data || containsSub d "loan amount".data

/-- Custom-field predicate of `_extract_loan_amount`: lowered name
contains `"loan amount"`. -/
def loanFieldMatch (f : CustomField) : Bool :=
  containsSub (pyLower f.name.data) "loan amount".data

/-- Python `item.get('total', None)` as the function's return value. -/
def pyOfTotal : Option PyFloat → PyVal
  | some d => PyVal.num d
  | Option.none => PyVal.none

/-- `_extract_loan_amount`: first matching line item's `total`, else first
matching custom field's raw `value`, else `None`.  Note the source returns
the custom field's value without numeric coercion. -/
def extract_loan_amount (r : DocumentResponse) : PyVal :=
  match r.line_items.find? loanItemMatch with
  | some it => pyOfTotal it.total
  | Option.none =>
    match r.custom_fields.find? loanFieldMatch with
    | some f => f.value
    | Option.none => PyVal.none

/-- Line-item predicate of `_extract_outstanding_balance`: lowered
description contains one of the four balance keywords. -/
def balItemMatch (it : LineItem) : Bool :=
  let d := pyLower it.description.data
  containsSub d "principal balance".data || containsSub d "outstanding balance".data ||
    containsSub d "current balance".data || containsSub d "remaining balance".data

/-- `_extract_outstanding_balance`: first matching line item's `total`,
else the document `total` when `total and total > 0`, else `None`. -/
def extract_outstanding_balance (r : DocumentResponse) : Option PyFloat :=
  match r.line_items.find? balItemMatch with
  | some it => it.total
  | Option.none =>
    match r.total with
    | some t => if t.truthy && t.pos then some t else Option.none
    | Option.none => Option.none

/-- Custom-field predicate of `_extract_apr`: lowered name contains
`"apr"` or `"interest rate"`. -/
def aprNameMatch (f : CustomField) : Bool :=
  let n := pyLower f.name.data
  containsSub n "apr".data || containsSub n "interest rate".data

/-- The numeric coercion the source implements (custom-field leg of
`_extract_apr`): `float(str(value).replace('%', ''))` — every `'%'`
removed, then Python `float()`; `none` models the `ValueError`. -/
def coerceValue (v : PyVal) : Option PyFloat :=
  pyFloatChars ((pyStrVal v).data.filter (fun c => c ≠ '%'))

/-- The custom-fields loop of `_extract_apr`: skip non-matching fields and
falsy values; coerce with `coerceValue`; a `ValueError` is swallowed and
the loop continues. -/
def scanAprFields : List CustomField → Option PyFloat
  | [] => Option.none
  | f :: rest =>
    if aprNameMatch f then
      if f.value.truthy then
        match coerceValue f.value with
        | some q => some q
        | Option.none => scanAprFields rest
      else scanAprFields rest
    else scanAprFields rest

/-- `_extract_apr`: the three text patterns in order against the lowered
`ocr_text` (returning `float` of the first capture), then the
custom-fields loop. -/
def extract_apr (r : DocumentResponse) : Option PyFloat :=
  let t := pyLower r.ocr_text.data
  match reSearch (matchAprAt "apr".data) t with
  | some g => pyFloatChars g
  | Option.none =>
    match reSearch (matchAprAt "annual percentage rate".data) t with
    | some g => pyFloatChars g
    | Option.none =>
      match reSearch (matchAprAt "interest rate".data) t with
      | some g => pyFloatChars g
      | Option.none => scanAprFields r.custom_fields

/-- `_extract_loan_terms`: the three term patterns in order against the
lowered `ocr_text`; the whole match (`group(0)`) stripped. -/
def extract_loan_terms (r : DocumentResponse) : Option String :=
  let t := pyLower r.ocr_text.data
  match reSearch matchTermYearAt t with
  | some m => some (String.mk (pyStrip m))
  | Option.none =>
    match reSearch matchTermMonthAt t with
    | some m => some (String.mk (pyStrip m))
    | Option.none =>
      match reSearch matchTermExplicitAt t with
      | some m => some (String.mk (pyStrip m))
      | Option.none => Option.none

/-- The vendor / bill-to leg of `_extract_property_address`: return the
sub-record's address if the sub-record is present and the address is
present and truthy (non-empty). -/
def vendorAddr : Option Vendor → Option String
  | some v =>
    match v.address with
    | some a => if a = "" then Option.none else some a
    | Option.none => Option.none
  | Option.none => Option.none

/-- `_extract_property_address`: vendor address, else bill-to address,
else the address pattern over the lowered `ocr_text` (capture group 1,
stripped). -/
def extract_property_address (r : DocumentResponse) : Option String :=
  match vendorAddr r.vendor with
  | some a => some a
  | Option.none =>
    match vendorAddr r.bill_to with
    | some a => some a
    | Option.none =>
      (reSearch matchAddrAt (pyLower r.ocr_text.data)).map
        (fun cap => String.mk (pyStrip cap))

/-- Assignment `d[k] = v` on a dict modelled as an association list whose
key is already present. -/
def setKey (l : List (String × Option String)) (k : String) (v : Option String) :
    List (String × Option String) :=
  l.map (fun p => if p.1 = k then (k, v) else p)

/-- `_extract_dates`: the four-key dict, `statement_date` / `due_date`
straight from the response, `payment_date` / `loan_origination_date` from
the two date patterns over the lowered `ocr_text`. -/
def extract_dates (r : DocumentResponse) : List (String × Option String) :=
  let d0 : List (String × Option String) :=
    [("statement_date", r.date), ("due_date", r.due_date),
     ("payment_date", Option.none), ("loan_origination_date", Option.none)]
  let t := pyLower r.ocr_text.data
  let d1 :=
    match reSearch matchPaymentDateAt t with
    | some tok => setKey d0 "payment_date" (some (String.mk tok))
    | Option.none => d0
  match reSearch matchOriginDateAt t with
  | some tok => setKey d1 "loan_origination_date" (some (String.mk tok))
  | Option.none => d1

/-- The `parsed_fields` sub-dict of the normalized record.  `loan_amount`
is a raw `PyVal` because `_extract_loan_amount` can return an uncoerced
custom-field value. -/
structure ParsedFields where
  loan_amount : PyVal
  outstanding_balance : Option PyFloat
  apr : Option PyFloat
  loan_terms : Option String
  property_address : Option String
  dates : List (String × Option String)
  payment_amount : Option PyFloat
  lender_name : Option String
deriving DecidableEq, Repr

/-- The normalized output record (spec `MortgageRecord`). -/
structure MortgageRecord where
  raw_response : DocumentResponse
  parsed_fields : ParsedFields
  confidence_score : Option PyFloat
  document_type : Option String
deriving DecidableEq, Repr

/-- `_extract_mortgage_fields` (the spec's `normalize`): run every
extractor and assemble the record.  Total by construction: the core never
raises. -/
def extract_mortgage_fields (r : DocumentResponse) : MortgageRecord where
  raw_response := r
  parsed_fields :=
    { loan_amount := extract_loan_amount r
      outstanding_balance := extract_outstanding_balance r
      apr := extract_apr r
      loan_terms := extract_loan_terms r
      property_address := extract_property_address r
      dates := extract_dates r
      payment_amount := r.total
      lender_name := r.vendor.bind Vendor.name }
  confidence_score := r.confidence
  document_type := r.document_type

/-- Python `str.title()` on ASCII: a letter after a non-letter is
uppercased, a letter after a letter is lowercased. -/
def pyTitleAux : Bool → List Char → List Char
  | _, [] => []
  | prev, c :: cs =>
    if c.isAlpha then
      (if prev then Char.toLower c else Char.toUpper c) :: pyTitleAux true cs
    else c :: pyTitleAux false cs

/-- Python `str.title()`. -/
def pyTitle (s : List Char) : List Char :=
  pyTitleAux false s

/-- Python's float formatting rounds to the requested precision with
round-half-to-even; on the exact decimal `a / 10 ^ e` this is the cent
count below. -/
def roundHalfEvenCents (a e : Nat) : Nat :=
  let n := a * 100
  let p := 10 ^ e
  let q := n / p
  let r := n % p
  if 2 * r < p then q else if p < 2 * r then q + 1 else if q % 2 = 0 then q else q + 1

/-- Insert a comma after every group of three characters (input is the
reversed digit list). -/
def group3r : List Char → List Char
  | a :: b :: c :: d :: rest => a :: b :: c :: ',' :: group3r (d :: rest)
  | l => l

/-- Thousands grouping of a digit string. -/
def groupDigits (ds : List Char) : List Char :=
  (group3r ds.reverse).reverse

/-- Python `f"{x:,.2f}"` on a float: sign of the value, grouped integer
digits, a point, two fraction digits. -/
def fmtCurrency (d : PyFloat) : String :=
  let cents := roundHalfEvenCents d.mant.natAbs d.exp
  (if d.mant < 0 then "-" else "") ++ String.mk (groupDigits (natDigits (cents / 100))) ++
    "." ++ String.mk (fracDigits 2 (cents % 100))

/-- A conditional output line for a string-valued field: emitted iff the
value is present and truthy (non-empty). -/
def segStr (label : String) : Option String → List String
  | some s => if s = "" then [] else [label ++ s ++ "\n"]
  | Option.none => []

/-- A conditional output line for a currency field. -/
def segCur (label : String) : Option PyFloat → List String
  | some d => if d.truthy then [label ++ fmtCurrency d ++ "\n"] else []
  | Option.none => []

/-- The APR output line: `f"APR: {apr}%"`. -/
def segApr : Option PyFloat → List String
  | some d => if d.truthy then ["APR: " ++ pyStrFloat d ++ "%\n"] else []
  | Option.none => []

/-- The loan-amount output line.  `loan_amount` is a raw `PyVal`; applying
the `:,.2f` format to a truthy string raises in Python, modelled as
`none`. -/
def segLoanAmount : PyVal → Option (List String)
  | PyVal.none => some []
  | PyVal.num d =>
    some (if d.truthy then ["Original Loan Amount: $" ++ fmtCurrency d ++ "\n"] else [])
  | PyVal.str s => if s = "" then some [] else Option.none

/-- One line of the dated-facts block:
`f"{date_type.replace('_', ' ').title()}: {date_value}"`. -/
def dateLine (k v : String) : String :=
  String.mk (pyTitle (k.data.map (fun c => if c = '_' then ' ' else c))) ++ ": " ++ v ++ "\n"

/-- The dated-facts block: emitted iff the dates dict is truthy
(non-empty); one line per truthy entry, in dict order. -/
def segDates (dates : List (String × Option String)) : List String :=
  if dates.isEmpty then []
  else
    "\n=== Important Dates ===\n" ::
      dates.foldr (fun p acc =>
        (match p.2 with
         | some s => if s = "" then [] else [dateLine p.1 s]
         | Option.none => []) ++ acc) []

/-- The confidence-score line. -/
def segConf : Option PyFloat → List String
  | some d => if d.truthy then ["\nConfidence Score: " ++ pyStrFloat d ++ "\n"] else []
  | Option.none => []

/-- Concatenation of the accumulated output pieces (the chain of
`output += ...` in the source). -/
def strConcat : List String → String
  | [] => ""
  | s :: rest => s ++ strConcat rest

/-- The output lines of `format_output`, in source order; `none` models
the exception raised when formatting a truthy string `loan_amount`. -/
def outputParts (m : MortgageRecord) : Option (List String) :=
  (segLoanAmount m.parsed_fields.loan_amount).map (fun la =>
    "=== Mortgage Statement Summary ===\n\n" ::
      (segStr "Lender: " m.parsed_fields.lender_name ++ la ++
        segCur "Outstanding Balance: $" m.parsed_fields.outstanding_balance ++
        segApr m.parsed_fields.apr ++
        segStr "Loan Terms: " m.parsed_fields.loan_terms ++
        segStr "Property Address: " m.parsed_fields.property_address ++
        segCur "Payment Amount: $" m.parsed_fields.payment_amount ++
        segDates m.parsed_fields.dates ++
        segConf m.confidence_score))

/-- `format_output`: the rendered summary string (the spec's `render`). -/
def format_output (m : MortgageRecord) : Option String :=
  (outputParts m).map strConcat

/-- A concrete response whose only loan-amount source is a custom field
holding the decorated string `"350,000"`. -/
def rawFieldResponse : DocumentResponse :=
  { custom_fields := [{ name := "Loan Amount", value := PyVal.str "350,000" }] }

/-- A concrete response with both a matching line item and a matching
custom field for the loan amount. -/
def bothSourcesResponse : DocumentResponse :=
  { line_items := [{ description := "Original Loan Amount", total := some ⟨35000000, 2⟩ }]
    custom_fields := [{ name := "Loan Amount", value := PyVal.num ⟨1, 0⟩ }] }

/-- A concrete response where matching line items lack totals while both
fallbacks (a positive document total, a numeric custom field) are
available. -/
def matchedNoTotalResponse : DocumentResponse :=
  { line_items := [{ description := "Outstanding Balance" },
                   { description := "original loan", total := Option.none }]
    custom_fields := [{ name := "loan amount", value := PyVal.num ⟨5, 0⟩ }]
    total := some ⟨1000, 0⟩ }

/-- Trailing-percent strip, as the claim C4 wording describes the
custom-field coercion (strip one trailing `'%'` only). -/
def stripTrailingPct (l : List Char) : List Char :=
  if l.getLast? = some '%' then l.dropLast else l

/-- Modelled from the claim C4 wording: scan custom fields, strip a
trailing `'%'`, coerce, swallow coercion failures.  Used only to exhibit
where the source deviates from the claim. -/
def scanAprFieldsClaimed : List CustomField → Option PyFloat
  | [] => Option.none
  | f :: rest =>
    if aprNameMatch f then
      match pyFloatChars (stripTrailingPct (pyStrVal f.value).data) with
      | some q => some q
      | Option.none => scanAprFieldsClaimed rest
    else scanAprFieldsClaimed rest

/-- A response whose only APR source is a custom field with an interior
percent sign. -/
def pctFieldResponse : DocumentResponse :=
  { custom_fields := [{ name := "apr", value := PyVal.str "3%5" }] }

/-- A response whose APR custom fields start with a falsy (zero) value. -/
def zeroFieldResponse : DocumentResponse :=
  { custom_fields := [{ name := "apr", value := PyVal.num ⟨0, 0⟩ },
                      { name := "apr rate", value := PyVal.str "4.5" }] }

/-- A response with no APR text pattern and one coercible custom field. -/
def aprFieldResponse : DocumentResponse :=
  { ocr_text := "monthly statement",
    custom_fields := [{ name := "Interest Rate", value := PyVal.str "4.25%" }] }

/-- A text in which the month pattern matches earlier in the string than
the year pattern: pattern order, not position, decides. -/
def orderTermResponse : DocumentResponse :=
  { ocr_text := "6 month intro, 30 year fixed" }

/-- A response whose only address source is a mixed-case free-text
pattern. -/
def textAddrResponse : DocumentResponse :=
  { ocr_text := "Property Address: 123 Main St" }

/-- A response whose address comes from the vendor record. -/
def vendorAddrResponse : DocumentResponse :=
  { vendor := some { name := some "Test Mortgage Co.",
                     address := some "456 Bank St, Finance City" } }

/-- A response whose address comes from the bill-to record. -/
def billToAddrResponse : DocumentResponse :=
  { bill_to := some { name := Option.none, address := some "789 Oak Ave, Suite 5" } }

/-- Truthiness of an optional string field (`if parsed.get(...)`). -/
def optStrTruthy : Option String → Bool
  | some s => s ≠ ""
  | Option.none => false

/-- Truthiness of an optional float field. -/
def optFloatTruthy : Option PyFloat → Bool
  | some d => d.truthy
  | Option.none => false

/-- The four date keys of the normalized record. -/
def stdDateKeys : List String :=
  ["statement_date", "due_date", "payment_date", "loan_origination_date"]

/-- No piece of the rendered output begins with the given label. -/
def absentLabel (m : MortgageRecord) (pre : String) : Prop :=
  ∀ ps p, outputParts m = some ps → p ∈ ps → ¬ pre.data <+: p.data

/-- A record whose loan amount is present but zero, all else absent. -/
def zeroLoanRecord : MortgageRecord :=
  { raw_response := {}
    parsed_fields :=
      { loan_amount := PyVal.num ⟨0, 0⟩
        outstanding_balance := Option.none
        apr := Option.none
        loan_terms := Option.none
        property_address := Option.none
        dates := []
        payment_amount := Option.none
        lender_name := Option.none }
    confidence_score := Option.none
    document_type := Option.none }

/-- A record with loan amount `350000.0` and APR `3.75`. -/
def fullRecord : MortgageRecord :=
  { raw_response := {}
    parsed_fields :=
      { loan_amount := PyVal.num ⟨350000, 0⟩
        outstanding_balance := Option.none
        apr := some ⟨375, 2⟩
        loan_terms := Option.none
        property_address := Option.none
        dates := []
        payment_amount := Option.none
        lender_name := Option.none }
    confidence_score := Option.none
    document_type := Option.none }

theorem pow_ten_pos (e : Nat) : (0 : ℚ) < 10 ^ e := by positivity

/-- Positivity of the denoted value is positivity of the mantissa. -/
theorem PyFloat.toRat_pos_iff (d : PyFloat) : 0 < d.toRat ↔ 0 < d.mant := by
  rw [PyFloat.toRat, lt_div_iff₀ (pow_ten_pos d.exp), zero_mul, Int.cast_pos]

/-- The claim C1 theorem.  `extract_mortgage_fields` (the spec's
`normalize`) is a total function — it never raises — and the `dates`
mapping of the record it returns has exactly the four date keys, in
source order, for every response. -/
theorem C1_normalize_dates_keys (r : DocumentResponse) :
    ((extract_mortgage_fields r).parsed_fields.dates).map Prod.fst =
      ["statement_date", "due_date", "payment_date", "loan_origination_date"] := by
  show (extract_dates r).map Prod.fst = _
  unfold extract_dates
  rcases hp : reSearch matchPaymentDateAt (pyLower r.ocr_text.data) with _ | tok1 <;>
    rcases ho : reSearch matchOriginDateAt (pyLower r.ocr_text.data) with _ | tok2 <;>
      simp [hp, ho, setKey]

/-- Witness for C1 at the empty response. -/
theorem C1_witness :
    ((extract_mortgage_fields {}).parsed_fields.dates).map Prod.fst =
      ["statement_date", "due_date", "payment_date", "loan_origination_date"] :=
  C1_normalize_dates_keys {}

/-- The claim C2 theorem.  With no balance-keyword line item, the
outstanding balance is the document-level `total` exactly when that total
is present and strictly positive; a zero or negative total yields
`none`. -/
theorem C2_outstanding_balance_total_fallback (r : DocumentResponse) (t : PyFloat)
    (h : r.line_items.find? balItemMatch = Option.none) :
    (extract_mortgage_fields r).parsed_fields.outstanding_balance = some t ↔
      r.total = some t ∧ 0 < t.toRat := by
  show extract_outstanding_balance r = some t ↔ _
  simp only [extract_outstanding_balance, h]
  cases ht : r.total with
  | none => simp
  | some t' =>
    dsimp only
    constructor
    · intro hsome
      by_cases hc : (t'.truthy && t'.pos) = true
      · rw [if_pos hc] at hsome
        obtain rfl : t' = t := Option.some.inj hsome
        have hpos : 0 < t'.mant := by
          simp [PyFloat.truthy, PyFloat.pos] at hc
          exact hc.2
        exact ⟨rfl, (PyFloat.toRat_pos_iff t').mpr hpos⟩
      · rw [if_neg hc] at hsome
        exact absurd hsome (by simp)
    · rintro ⟨hteq, hpos⟩
      obtain rfl : t' = t := Option.some.inj hteq
      have hm : 0 < t'.mant := (PyFloat.toRat_pos_iff t').mp hpos
      rw [if_pos (by simp [PyFloat.truthy, PyFloat.pos]; omega)]

/-- Witness for C2 at a concrete response: total `287450.23`, no line
items. -/
theorem C2_witness :
    (extract_mortgage_fields { total := some ⟨28745023, 2⟩ }).parsed_fields.outstanding_balance
      = some ⟨28745023, 2⟩ :=
  (C2_outstanding_balance_total_fallback { total := some ⟨28745023, 2⟩ } ⟨28745023, 2⟩
    (by decide)).mpr ⟨rfl, by rw [PyFloat.toRat_pos_iff]; decide⟩

/-- The claim C5 theorem (evaluating the code at the failing input).
`_extract_loan_amount` resolves the loan amount through the matching
custom field but returns the raw stored value — here the decorated string
`"350,000"` — not a numeric coercion of it; the program's own coercion
(the one `_extract_apr` uses) rejects this string, and `format_output`
raises on the resulting record, so no coerced number is ever produced. -/
theorem C5_loan_amount_custom_field_uncoerced :
    extract_loan_amount rawFieldResponse = PyVal.str "350,000" ∧
      coerceValue (PyVal.str "350,000") = Option.none ∧
      format_output (extract_mortgage_fields rawFieldResponse) = Option.none := by
  refine ⟨by decide, by decide, ?_⟩
  decide

/-- The claim C6 theorem.  When some line item matches the loan-amount
keywords, `_extract_loan_amount` returns the first matching item's
`total`, even when a matching custom field is also present. -/
theorem C6_loan_amount_line_item_wins (r : DocumentResponse) (it : LineItem)
    (h1 : r.line_items.find? loanItemMatch = some it)
    (_h2 : ∃ f ∈ r.custom_fields, loanFieldMatch f = true) :
    extract_loan_amount r = pyOfTotal it.total := by
  simp [extract_loan_amount, h1]

/-- Witness for C6: the line item's total wins over the custom field. -/
theorem C6_witness :
    extract_loan_amount bothSourcesResponse = PyVal.num ⟨35000000, 2⟩ :=
  C6_loan_amount_line_item_wins bothSourcesResponse
    { description := "Original Loan Amount", total := some ⟨35000000, 2⟩ }
    (by decide)
    ⟨{ name := "Loan Amount", value := PyVal.num ⟨1, 0⟩ }, by decide, by decide⟩

/-- The claim C9 theorem.  Once a keyword-matching line item is found,
each extractor returns that item's `total` — hence `none` when the total
is absent — and the later fallbacks (document `total` for the balance,
custom fields for the loan amount) are never consulted. -/
theorem C9_matched_item_without_total_blocks_fallbacks (r : DocumentResponse)
    (itB itL : LineItem)
    (hb : r.line_items.find? balItemMatch = some itB) (hbt : itB.total = Option.none)
    (hl : r.line_items.find? loanItemMatch = some itL) (hlt : itL.total = Option.none) :
    extract_outstanding_balance r = Option.none ∧ extract_loan_amount r = PyVal.none := by
  constructor
  · simp [extract_outstanding_balance, hb, hbt]
  · simp [extract_loan_amount, hl, hlt, pyOfTotal]

/-- Witness for C9: despite a positive document total and a numeric
custom field, both extractors yield absent. -/
theorem C9_witness :
    extract_outstanding_balance matchedNoTotalResponse = Option.none ∧
      extract_loan_amount matchedNoTotalResponse = PyVal.none :=
  C9_matched_item_without_total_blocks_fallbacks matchedNoTotalResponse
    { description := "Outstanding Balance" } { description := "original loan" }
    (by decide) (by decide) (by decide) (by decide)

/-- Stripping is the identity on lists with no whitespace characters. -/
theorem pyStrip_no_space (l : List Char) (h : ∀ c ∈ l, pySpace c = false) :
    pyStrip l = l := by
  unfold pyStrip
  have h1 : l.dropWhile pySpace = l := by
    cases l with
    | nil => rfl
    | cons a t =>
      rw [List.dropWhile_cons, if_neg]
      simp [h a (List.mem_cons_self a t)]
  rw [h1]
  have h2 : l.reverse.dropWhile pySpace = l.reverse := by
    cases hr : l.reverse with
    | nil => rfl
    | cons a t =>
      rw [List.dropWhile_cons, if_neg]
      have : a ∈ l := by
        rw [← List.mem_reverse, hr]
        exact List.mem_cons_self a t
      simp [h a this]
  rw [h2, List.reverse_reverse]

/-- `takeDigits` splits a digit prefix off exactly when the remainder does
not begin with a digit. -/
theorem takeDigits_eq (ds r : List Char) (hd : ∀ c ∈ ds, c.isDigit = true)
    (hr : ∀ c, r.head? = some c → c.isDigit = false) :
    takeDigits (ds ++ r) = (ds, r) := by
  induction ds with
  | nil =>
    cases r with
    | nil => rfl
    | cons c t =>
      have := hr c rfl
      simp [takeDigits, this]
  | cons a t ih =>
    have ha := hd a (List.mem_cons_self a t)
    have ht : ∀ c ∈ t, c.isDigit = true := fun c hc => hd c (List.mem_cons_of_mem a hc)
    simp [takeDigits, ha, ih ht]

/-- Canonicalization preserves the denoted rational value. -/
theorem canonAux_toRat (m : Int) (e : Nat) :
    (canonAux m e).toRat = (⟨m, e⟩ : PyFloat).toRat := by
  induction e generalizing m with
  | zero => rfl
  | succ e ih =>
    unfold canonAux
    by_cases h : m % 10 = 0
    · rw [if_pos h, ih]
      obtain ⟨k, rfl⟩ := Int.dvd_of_emod_eq_zero h
      rw [Int.mul_ediv_cancel_left k (by norm_num)]
      show (k : ℚ) / 10 ^ e = (10 * k : ℤ) / 10 ^ (e + 1)
      push_cast
      rw [pow_succ]
      field_simp
      ring
    · rw [if_neg h]

/-- The claim C3 counterexample: the coercion the source implements does
not strip `'$'` or `','`, so the claim's example input `"$1,234.50"`
yields absent rather than `1234.50`. -/
theorem C3_counterexample : coerceValue (PyVal.str "$1,234.50") = Option.none := by
  decide

/-- A digit character is not a `'%'`. -/
theorem digit_ne_pct {c : Char} (hc : c.isDigit = true) : decide (c ≠ '%') = true := by
  apply decide_eq_true
  intro hEq
  rw [hEq] at hc
  exact absurd hc (by decide)

/-- A digit character is not whitespace. -/
theorem digit_not_space {c : Char} (hc : c.isDigit = true) : pySpace c = false := by
  by_contra hs
  simp only [Bool.not_eq_false, pySpace, Bool.or_eq_true, decide_eq_true_eq] at hs
  rcases hs with ((((h | h) | h) | h) | h) | h <;>
    (subst h; exact absurd hc (by decide))

/-- Value denoted by `pyFloatOfParts` with zero exponent: the signed
decimal `ip . fp`. -/
theorem pyFloatOfParts_toRat (neg : Bool) (ip fp : List Char) :
    (pyFloatOfParts neg ip fp 0).toRat =
      (if neg then -1 else 1) *
        ((digitsToNat ip : ℚ) + (digitsToNat fp : ℚ) / 10 ^ fp.length) := by
  unfold pyFloatOfParts
  dsimp only
  rw [if_pos (by omega : (0 : Int) ≤ (fp.length : Int) - 0)]
  rw [show (((fp.length : Int) - 0).toNat) = fp.length by omega]
  show (canonAux _ fp.length).toRat = _
  rw [canonAux_toRat]
  unfold PyFloat.toRat
  dsimp only
  cases neg <;> push_cast <;> field_simp

/-- `parseFloatBody` on a pure numeral `ds . fs`. -/
theorem parseFloatBody_digits (neg : Bool) (ds fs : List Char)
    (hds : ds ≠ []) (hd : ∀ c ∈ ds, c.isDigit = true) (hf : ∀ c ∈ fs, c.isDigit = true) :
    parseFloatBody neg (ds ++ '.' :: fs) = some (pyFloatOfParts neg ds fs 0) := by
  unfold parseFloatBody
  rw [takeDigits_eq ds ('.' :: fs) hd
    (fun c hc => by simp only [List.head?_cons, Option.some.injEq] at hc; subst hc; decide)]
  dsimp only
  rw [if_pos rfl]
  rw [show takeDigits fs = (fs, []) from by
    simpa using takeDigits_eq fs [] hf (fun c hc => by simp at hc)]
  dsimp only
  rw [if_neg (by simp [hds])]
  rfl

/-- A whitespace character is not a `'%'`. -/
theorem space_ne_pct {c : Char} (hc : pySpace c = true) : decide (c ≠ '%') = true := by
  apply decide_eq_true
  intro hEq
  rw [hEq] at hc
  exact absurd hc (by decide)

/-- Stripping ignores all-whitespace padding on either side. -/
theorem pyStrip_pad (w1 t w2 : List Char)
    (h1 : ∀ c ∈ w1, pySpace c = true) (h2 : ∀ c ∈ w2, pySpace c = true) :
    pyStrip (w1 ++ t ++ w2) = pyStrip t := by
  have hw1 : w1.dropWhile pySpace = [] := List.dropWhile_eq_nil_iff.mpr h1
  have hw2 : w2.dropWhile pySpace = [] := List.dropWhile_eq_nil_iff.mpr h2
  have hw2r : w2.reverse.dropWhile pySpace = [] :=
    List.dropWhile_eq_nil_iff.mpr (fun c hc => h2 c (List.mem_reverse.mp hc))
  unfold pyStrip
  rw [List.append_assoc, List.dropWhile_append, hw1]
  simp only [List.isEmpty_nil, if_true]
  rw [List.dropWhile_append]
  by_cases ht : t.dropWhile pySpace = []
  · rw [ht]
    simp [hw2]
  · rw [if_neg (by simpa [List.isEmpty_iff] using ht)]
    rw [List.reverse_append, List.dropWhile_append, hw2r]
    simp

/-- `takeDigits` returns a digit prefix and a remainder that does not
begin with a digit, and the two concatenate back to the input. -/
theorem takeDigits_spec (l : List Char) :
    (takeDigits l).1 ++ (takeDigits l).2 = l ∧
      (∀ c ∈ (takeDigits l).1, c.isDigit = true) ∧
      (∀ c, (takeDigits l).2.head? = some c → c.isDigit = false) := by
  induction l with
  | nil =>
    refine ⟨rfl, ?_, ?_⟩
    · intro c hc; simp [takeDigits] at hc
    · intro c hc; simp [takeDigits] at hc
  | cons a t ih =>
    by_cases ha : a.isDigit = true
    · have hstep : takeDigits (a :: t) = (a :: (takeDigits t).1, (takeDigits t).2) := by
        cases htd : takeDigits t with
        | mk d r => simp [takeDigits, ha, htd]
      rw [hstep]
      refine ⟨?_, ?_, ih.2.2⟩
      · dsimp only
        rw [List.cons_append, ih.1]
      · intro c hc
        dsimp only at hc
        rcases List.mem_cons.mp hc with rfl | hc
        · exact ha
        · exact ih.2.1 c hc
    · have hstep : takeDigits (a :: t) = ([], a :: t) := by
        simp [takeDigits, ha]
      rw [hstep]
      refine ⟨rfl, ?_, ?_⟩
      · intro c hc; simp at hc
      · intro c hc
        dsimp only at hc
        simp only [List.head?_cons, Option.some.injEq] at hc
        subst hc
        cases hb : a.isDigit with
        | false => rfl
        | true => exact absurd hb ha

/-- `takeDigits` consumes the whole input into a nonempty digit prefix
exactly when the input is a nonempty all-digit list. -/
theorem takeDigits_all_iff (l : List Char) :
    ((takeDigits l).1 ≠ [] ∧ (takeDigits l).2 = []) ↔
      (l ≠ [] ∧ ∀ c ∈ l, c.isDigit = true) := by
  obtain ⟨h1, h2, h3⟩ := takeDigits_spec l
  constructor
  · rintro ⟨hd, hr⟩
    rw [hr, List.append_nil] at h1
    refine ⟨?_, ?_⟩
    · rw [← h1]; exact hd
    · intro c hc
      rw [← h1] at hc
      exact h2 c hc
  · rintro ⟨hne, hall⟩
    have hr : (takeDigits l).2 = [] := by
      cases hh : (takeDigits l).2 with
      | nil => rfl
      | cons x xs =>
        have hx : x.isDigit = false := h3 x (by rw [hh]; rfl)
        have hxl : x ∈ l := by
          rw [← h1, hh]
          exact List.mem_append_right _ (List.mem_cons_self x xs)
        rw [hall x hxl] at hx
        exact absurd hx (by decide)
    refine ⟨?_, hr⟩
    intro hd
    rw [hd, List.nil_append, hr] at h1
    exact hne h1.symm

/-- The all-remaining-digits test shared by the exponent-suffix parse:
the parse succeeds exactly when the residue is a nonempty digit string. -/
theorem digits_consume_check {α : Type} (t : List Char) (f : List Char → α) :
    (if (takeDigits t).1 = [] || (takeDigits t).2 ≠ [] then (Option.none : Option α)
      else some (f (takeDigits t).1)).isSome
      = (decide (t ≠ []) && t.all Char.isDigit) := by
  have hiff := takeDigits_all_iff t
  by_cases h1 : (takeDigits t).1 = []
  · rw [if_pos (by simp [h1])]
    symm
    cases hx : (decide (t ≠ []) && t.all Char.isDigit) with
    | false => rfl
    | true =>
      exfalso
      simp only [Bool.and_eq_true, decide_eq_true_eq, List.all_eq_true] at hx
      exact (hiff.mpr hx).1 h1
  · by_cases h2 : (takeDigits t).2 = []
    · rw [if_neg (by simp [h1, h2])]
      symm
      simp only [Option.isSome_some, Bool.and_eq_true, decide_eq_true_eq, List.all_eq_true]
      exact hiff.mp ⟨h1, h2⟩
    · rw [if_pos (by simp [h2])]
      symm
      cases hx : (decide (t ≠ []) && t.all Char.isDigit) with
      | false => rfl
      | true =>
        exfalso
        simp only [Bool.and_eq_true, decide_eq_true_eq, List.all_eq_true] at hx
        exact h2 (hiff.mpr hx).2

/-- The exponent-suffix parse succeeds exactly on the exponent grammar. -/
theorem parseExpPart_isSome (r : List Char) :
    (parseExpPart r).isSome = isFloatTail r := by
  cases r with
  | nil => rfl
  | cons c cs =>
    unfold parseExpPart isFloatTail
    dsimp only
    by_cases hce : (c = 'e' || c = 'E') = true
    · rw [if_pos hce, hce, Bool.true_and]
      cases cs with
      | nil => rfl
      | cons c2 t =>
        dsimp only
        by_cases h2 : c2 = '+'
        · rw [if_pos h2, if_pos h2]
          dsimp only
          exact digits_consume_check t
            (fun ds => if (false : Bool) then -(digitsToNat ds : Int) else (digitsToNat ds : Int))
        · by_cases h3 : c2 = '-'
          · rw [if_neg h2, if_pos h3, if_neg h2, if_pos h3]
            dsimp only
            exact digits_consume_check t
              (fun ds => if (true : Bool) then -(digitsToNat ds : Int) else (digitsToNat ds : Int))
          · rw [if_neg h2, if_neg h3, if_neg h2, if_neg h3]
            dsimp only
            exact digits_consume_check (c2 :: t)
              (fun ds => if (false : Bool) then -(digitsToNat ds : Int) else (digitsToNat ds : Int))
    · have hfalse : (c = 'e' || c = 'E') = false := by
        cases hx : (c = 'e' || c = 'E') with
        | false => rfl
        | true => exact absurd hx hce
      rw [if_neg hce, hfalse, Bool.false_and]
      rfl

/-- The body parse succeeds exactly on the body grammar. -/
theorem parseFloatBody_isSome (neg : Bool) (l : List Char) :
    (parseFloatBody neg l).isSome = isFloatBody l := by
  unfold parseFloatBody isFloatBody
  cases htd : takeDigits l with
  | mk ip r1 =>
    dsimp only
    cases r1 with
    | nil =>
      dsimp only
      by_cases hip : ip = []
      · rw [if_pos hip]
        simp [hip]
      · rw [if_neg hip]
        simp [hip, parseExpPart, Option.isSome_map']
    | cons c r2 =>
      dsimp only
      by_cases hc : c = '.'
      · rw [if_pos hc, if_pos hc]
        cases hq : takeDigits r2 with
        | mk fp r3 =>
          dsimp only
          by_cases hip : ip = []
          · by_cases hfp : fp = []
            · rw [if_pos (by simp [hip, hfp])]
              simp [hip, hfp]
            · rw [if_neg (by simp [hfp])]
              simp [hfp, Option.isSome_map', parseExpPart_isSome]
          · rw [if_neg (by simp [hip])]
            simp [hip, Option.isSome_map', parseExpPart_isSome]
      · rw [if_neg hc, if_neg hc]
        by_cases hip : ip = []
        · rw [if_pos hip]
          simp [hip]
        · rw [if_neg hip]
          simp [hip, Option.isSome_map', parseExpPart_isSome]

/-- The full `float()` model succeeds exactly when the stripped input is in
the literal grammar, for every input string. -/
theorem pyFloatChars_isSome (s : List Char) :
    (pyFloatChars s).isSome = isPyFloatLit (pyStrip s) := by
  unfold pyFloatChars isPyFloatLit
  cases hps : pyStrip s with
  | nil => rfl
  | cons c t =>
    dsimp only
    by_cases h1 : c = '-'
    · rw [if_pos h1, if_pos h1]
      exact parseFloatBody_isSome true t
    · rw [if_neg h1, if_neg h1]
      by_cases h2 : c = '+'
      · rw [if_pos h2, if_pos h2]
        exact parseFloatBody_isSome false t
      · rw [if_neg h2, if_neg h2]
        exact parseFloatBody_isSome false (c :: t)

/-- `parseFloatBody` on a pure un-dotted numeral. -/
theorem parseFloatBody_digits_nodot (neg : Bool) (ds : List Char)
    (hds : ds ≠ []) (hd : ∀ c ∈ ds, c.isDigit = true) :
    parseFloatBody neg ds = some (pyFloatOfParts neg ds [] 0) := by
  unfold parseFloatBody
  rw [show takeDigits ds = (ds, []) from by
    simpa using takeDigits_eq ds [] hd (fun c hc => by simp at hc)]
  dsimp only
  rw [if_neg hds]
  rfl

/-- `float()` on an explicit sign followed by a digit-or-point body reduces
to the body parse with that sign. -/
theorem pyFloatChars_sign_body (neg : Bool) (body : List Char)
    (hb : ∀ c ∈ body, c.isDigit = true ∨ c = '.') (hne : body ≠ []) :
    pyFloatChars ((if neg then ['-'] else []) ++ body) = parseFloatBody neg body := by
  have hnospace : ∀ c ∈ (if neg then ['-'] else []) ++ body, pySpace c = false := by
    intro c hc
    rcases List.mem_append.mp hc with hc | hc
    · cases neg with
      | true =>
        rw [if_pos rfl] at hc
        rcases List.mem_singleton.mp hc with rfl
        decide
      | false =>
        rw [if_neg (by decide)] at hc
        simp at hc
    · rcases hb c hc with hdg | rfl
      · exact digit_not_space hdg
      · decide
  unfold pyFloatChars
  rw [pyStrip_no_space _ hnospace]
  cases neg with
  | true =>
    rw [if_pos rfl, List.singleton_append]
    dsimp only
    rw [if_pos rfl]
  | false =>
    rw [if_neg (by decide), List.nil_append]
    cases body with
    | nil => exact absurd rfl hne
    | cons a t =>
      have ha := hb a (List.mem_cons_self a t)
      have h1 : ¬ a = '-' := by
        rcases ha with hdg | rfl
        · intro hEq; rw [hEq] at hdg; exact absurd hdg (by decide)
        · decide
      have h2 : ¬ a = '+' := by
        rcases ha with hdg | rfl
        · intro hEq; rw [hEq] at hdg; exact absurd hdg (by decide)
        · decide
      dsimp only
      rw [if_neg h1, if_neg h2]

/-- The claim C3 theorem, amended.  The coercion the source implements
removes every `'%'` occurrence wherever it appears (but not `'$'` or
`','`), ignores surrounding whitespace, accepts a negative sign, succeeds
on dotted and un-dotted decimal numerals (with the stated rational
value), succeeds exactly when the whitespace-stripped percent-free
residue lies in the float-literal grammar — so it returns absent, never
raising, on every other residue — and sends a missing value to absent. -/
theorem C3_amended_coercion :
    (∀ u w : List Char,
        coerceValue (PyVal.str (String.mk (u ++ '%' :: w)))
          = coerceValue (PyVal.str (String.mk (u ++ w)))) ∧
    (∀ w1 t w2 : List Char,
        (∀ c ∈ w1, pySpace c = true) → (∀ c ∈ w2, pySpace c = true) →
        coerceValue (PyVal.str (String.mk (w1 ++ t ++ w2)))
          = coerceValue (PyVal.str (String.mk t))) ∧
    (∀ (neg : Bool) (ds fs : List Char), ds ≠ [] →
        (∀ c ∈ ds, c.isDigit = true) → (∀ c ∈ fs, c.isDigit = true) →
        coerceValue (PyVal.str (String.mk
            ((if neg then ['-'] else []) ++ ds ++ '.' :: fs)))
          = some (pyFloatOfParts neg ds fs 0) ∧
        coerceValue (PyVal.str (String.mk ((if neg then ['-'] else []) ++ ds)))
          = some (pyFloatOfParts neg ds [] 0) ∧
        (pyFloatOfParts neg ds fs 0).toRat =
          (if neg then -1 else 1) *
            ((digitsToNat ds : ℚ) + (digitsToNat fs : ℚ) / 10 ^ fs.length)) ∧
    (∀ s : String,
        (coerceValue (PyVal.str s)).isSome
          = isPyFloatLit (pyStrip (s.data.filter (fun c => c ≠ '%')))) ∧
    coerceValue PyVal.none = Option.none := by
  refine ⟨?_, ?_, ?_, ?_, ?_⟩
  · intro u w
    show pyFloatChars ((u ++ '%' :: w).filter (fun c => c ≠ '%'))
      = pyFloatChars ((u ++ w).filter (fun c => c ≠ '%'))
    rw [List.filter_append, List.filter_append, List.filter_cons_of_neg (by decide)]
  · intro w1 t w2 hw1 hw2
    show pyFloatChars ((w1 ++ t ++ w2).filter (fun c => c ≠ '%'))
      = pyFloatChars (t.filter (fun c => c ≠ '%'))
    rw [List.filter_append, List.filter_append]
    rw [List.filter_eq_self.mpr (fun c hc => space_ne_pct (hw1 c hc))]
    rw [List.filter_eq_self.mpr (fun c hc => space_ne_pct (hw2 c hc))]
    unfold pyFloatChars
    rw [pyStrip_pad w1 (t.filter (fun c => c ≠ '%')) w2 hw1 hw2]
  · intro neg ds fs hds hd hf
    refine ⟨?_, ?_, pyFloatOfParts_toRat neg ds fs⟩
    · show pyFloatChars (((if neg then ['-'] else []) ++ ds ++ '.' :: fs).filter
          (fun c => c ≠ '%')) = _
      have hnp : ∀ c ∈ (if neg then ['-'] else []) ++ ds ++ '.' :: fs,
          decide (c ≠ '%') = true := by
        intro c hc
        rcases List.mem_append.mp hc with hc | hc
        · rcases List.mem_append.mp hc with hc | hc
          · cases neg with
            | true =>
              rw [if_pos rfl] at hc
              rcases List.mem_singleton.mp hc with rfl
              decide
            | false =>
              rw [if_neg (by decide)] at hc
              simp at hc
          · exact digit_ne_pct (hd c hc)
        · rcases List.mem_cons.mp hc with rfl | hc
          · decide
          · exact digit_ne_pct (hf c hc)
      rw [List.filter_eq_self.mpr hnp]
      rw [List.append_assoc]
      have hb : ∀ c ∈ ds ++ '.' :: fs, c.isDigit = true ∨ c = '.' := by
        intro c hc
        rcases List.mem_append.mp hc with hc | hc
        · exact Or.inl (hd c hc)
        · rcases List.mem_cons.mp hc with rfl | hc
          · exact Or.inr rfl
          · exact Or.inl (hf c hc)
      have hne2 : ds ++ '.' :: fs ≠ [] := by
        intro hE
        rcases List.append_eq_nil.mp hE with ⟨_, hE2⟩
        exact List.cons_ne_nil _ _ hE2
      rw [pyFloatChars_sign_body neg (ds ++ '.' :: fs) hb hne2]
      exact parseFloatBody_digits neg ds fs hds hd hf
    · show pyFloatChars (((if neg then ['-'] else []) ++ ds).filter
          (fun c => c ≠ '%')) = _
      have hnp : ∀ c ∈ (if neg then ['-'] else []) ++ ds,
          decide (c ≠ '%') = true := by
        intro c hc
        rcases List.mem_append.mp hc with hc | hc
        · cases neg with
          | true =>
            rw [if_pos rfl] at hc
            rcases List.mem_singleton.mp hc with rfl
            decide
          | false =>
            rw [if_neg (by decide)] at hc
            simp at hc
        · exact digit_ne_pct (hd c hc)
      rw [List.filter_eq_self.mpr hnp]
      rw [pyFloatChars_sign_body neg ds (fun c hc => Or.inl (hd c hc)) hds]
      exact parseFloatBody_digits_nodot neg ds hds hd
  · intro s
    exact pyFloatChars_isSome (s.data.filter (fun c => c ≠ '%'))
  · decide

/-- Witness for the amended C3 theorem at concrete inputs: an interior
percent sign is dropped, whitespace around `"3.75"` is ignored,
`"-12.5"` coerces to the negative dotted value, `"-42"` to the un-dotted
one, and the grammar characterization evaluated at `"$1,234.50"`. -/
theorem C3_witness :
    (coerceValue (PyVal.str (String.mk (['1'] ++ '%' :: ['2', '.', '5'])))
      = coerceValue (PyVal.str (String.mk (['1'] ++ ['2', '.', '5'])))) ∧
    (coerceValue (PyVal.str (String.mk ([' '] ++ ['3', '.', '7', '5'] ++ [' '])))
      = coerceValue (PyVal.str (String.mk ['3', '.', '7', '5']))) ∧
    (coerceValue (PyVal.str (String.mk
        ((if true then ['-'] else []) ++ ['1', '2'] ++ '.' :: ['5'])))
      = some (pyFloatOfParts true ['1', '2'] ['5'] 0)) ∧
    (coerceValue (PyVal.str (String.mk ((if true then ['-'] else []) ++ ['4', '2'])))
      = some (pyFloatOfParts true ['4', '2'] [] 0)) ∧
    ((coerceValue (PyVal.str "$1,234.50")).isSome
      = isPyFloatLit (pyStrip ("$1,234.50".data.filter (fun c => c ≠ '%')))) ∧
    coerceValue PyVal.none = Option.none := by
  have h := C3_amended_coercion
  exact ⟨h.1 ['1'] ['2', '.', '5'],
    h.2.1 [' '] ['3', '.', '7', '5'] [' '] (by decide) (by decide),
    (h.2.2.1 true ['1', '2'] ['5'] (by decide) (by decide) (by decide)).1,
    (h.2.2.1 true ['4', '2'] [] (by decide) (by decide) (by decide)).2.1,
    h.2.2.2.1 "$1,234.50", h.2.2.2.2⟩

/-- The claim C4 counterexample.  The source removes every `'%'`
occurrence (not only a trailing one): on the value `"3%5"` it returns
`35.0` where the claim's trailing-strip coercion fails and yields absent.
And a falsy value (`0`) is skipped without being coerced: the source
moves on and returns `4.5` where the claim's procedure would coerce the
leading `0` and return `0.0`. -/
theorem C4_counterexample :
    extract_apr pctFieldResponse = some ⟨35, 0⟩ ∧
      scanAprFieldsClaimed pctFieldResponse.custom_fields = Option.none ∧
      extract_apr zeroFieldResponse = some ⟨45, 1⟩ ∧
      scanAprFieldsClaimed zeroFieldResponse.custom_fields = some ⟨0, 0⟩ := by
  refine ⟨by decide, by decide, by decide, by decide⟩

/-- The claim C4 theorem, amended.  `_extract_apr` tries the three text
patterns in the fixed order apr, annual percentage rate, interest rate
against the lowered text and returns the float of the first capture; only
if none matches does it scan the custom fields, where a field is skipped
(and scanning continues with the rest) when its name does not match, its
value is falsy, or its coercion — which removes every `'%'` — fails; a
matching, truthy, coercible field yields its coerced value. -/
theorem C4_amended_apr_priority (r : DocumentResponse) :
    (∀ g, reSearch (matchAprAt "apr".data) (pyLower r.ocr_text.data) = some g →
        extract_apr r = pyFloatChars g) ∧
    (reSearch (matchAprAt "apr".data) (pyLower r.ocr_text.data) = Option.none →
      ∀ g, reSearch (matchAprAt "annual percentage rate".data) (pyLower r.ocr_text.data)
          = some g →
        extract_apr r = pyFloatChars g) ∧
    (reSearch (matchAprAt "apr".data) (pyLower r.ocr_text.data) = Option.none →
      reSearch (matchAprAt "annual percentage rate".data) (pyLower r.ocr_text.data)
          = Option.none →
      ∀ g, reSearch (matchAprAt "interest rate".data) (pyLower r.ocr_text.data) = some g →
        extract_apr r = pyFloatChars g) ∧
    (reSearch (matchAprAt "apr".data) (pyLower r.ocr_text.data) = Option.none →
      reSearch (matchAprAt "annual percentage rate".data) (pyLower r.ocr_text.data)
          = Option.none →
      reSearch (matchAprAt "interest rate".data) (pyLower r.ocr_text.data) = Option.none →
      extract_apr r = scanAprFields r.custom_fields) ∧
    (∀ f rest, aprNameMatch f = false ∨ f.value.truthy = false ∨
          coerceValue f.value = Option.none →
        scanAprFields (f :: rest) = scanAprFields rest) ∧
    (∀ f rest q, aprNameMatch f = true → f.value.truthy = true →
        coerceValue f.value = some q → scanAprFields (f :: rest) = some q) := by
  refine ⟨?_, ?_, ?_, ?_, ?_, ?_⟩
  · intro g hg
    simp [extract_apr, hg]
  · intro h1 g hg
    simp [extract_apr, h1, hg]
  · intro h1 h2 g hg
    simp [extract_apr, h1, h2, hg]
  · intro h1 h2 h3
    simp [extract_apr, h1, h2, h3]
  · intro f rest hor
    rcases hor with h | h | h
    · simp [scanAprFields, h]
    · by_cases hn : aprNameMatch f <;> simp [scanAprFields, hn, h]
    · by_cases hn : aprNameMatch f <;> by_cases ht : f.value.truthy <;>
        simp [scanAprFields, hn, ht, h]
  · intro f rest q hn ht hc
    simp [scanAprFields, hn, ht, hc]

/-- Witness for the amended C4 theorem: with no text match, the custom
field `{name: "Interest Rate", value: "4.25%"}` yields `4.25`. -/
theorem C4_witness : extract_apr aprFieldResponse = some ⟨425, 2⟩ := by
  have h := C4_amended_apr_priority aprFieldResponse
  exact (h.2.2.2.1 (by decide) (by decide) (by decide)).trans
    (h.2.2.2.2.2 { name := "Interest Rate", value := PyVal.str "4.25%" } [] ⟨425, 2⟩
      (by decide) (by decide) (by decide))

/-- The claim C7 theorem.  `_extract_loan_terms` applies the year pattern,
then the month pattern, then the explicit loan-term pattern, returning the
first full match (`group(0)`, not just the captured number) stripped of
surrounding whitespace, and absent when none matches; on the text
`"APR: 3.75% Loan Term: 30 year fixed"` it returns `"30 year fixed"`,
which contains `"30 year"`. -/
theorem C7_loan_terms_priority (r : DocumentResponse) :
    (∀ m, reSearch matchTermYearAt (pyLower r.ocr_text.data) = some m →
        extract_loan_terms r = some (String.mk (pyStrip m))) ∧
    (reSearch matchTermYearAt (pyLower r.ocr_text.data) = Option.none →
      ∀ m, reSearch matchTermMonthAt (pyLower r.ocr_text.data) = some m →
        extract_loan_terms r = some (String.mk (pyStrip m))) ∧
    (reSearch matchTermYearAt (pyLower r.ocr_text.data) = Option.none →
      reSearch matchTermMonthAt (pyLower r.ocr_text.data) = Option.none →
      ∀ m, reSearch matchTermExplicitAt (pyLower r.ocr_text.data) = some m →
        extract_loan_terms r = some (String.mk (pyStrip m))) ∧
    (reSearch matchTermYearAt (pyLower r.ocr_text.data) = Option.none →
      reSearch matchTermMonthAt (pyLower r.ocr_text.data) = Option.none →
      reSearch matchTermExplicitAt (pyLower r.ocr_text.data) = Option.none →
      extract_loan_terms r = Option.none) ∧
    extract_loan_terms { ocr_text := "APR: 3.75% Loan Term: 30 year fixed" }
      = some "30 year fixed" ∧
    containsSub "30 year fixed".data "30 year".data = true := by
  refine ⟨?_, ?_, ?_, ?_, by decide, by decide⟩
  · intro m hm
    simp [extract_loan_terms, hm]
  · intro h1 m hm
    simp [extract_loan_terms, h1, hm]
  · intro h1 h2 m hm
    simp [extract_loan_terms, h1, h2, hm]
  · intro h1 h2 h3
    simp [extract_loan_terms, h1, h2, h3]

/-- Witness for C7: the year pattern is applied first, so the later
`"30 year fixed"` wins over the earlier `"6 month"`. -/
theorem C7_witness : extract_loan_terms orderTermResponse = some "30 year fixed" :=
  ((C7_loan_terms_priority orderTermResponse).1 "30 year fixed".data (by decide)).trans
    (by decide)

/-- Computation rule for `Char.ofNat` applied in `Char.toLower` to an
uppercase ASCII letter. -/
theorem toNat_toLower_of_upper {c : Char} (h1 : 65 ≤ c.toNat) (h2 : c.toNat ≤ 90) :
    (Char.toLower c).toNat = c.toNat + 32 := by
  unfold Char.toLower
  rw [if_pos ⟨h1, h2⟩]
  have hv : (c.toNat + 32).isValidChar := Or.inl (by omega)
  unfold Char.ofNat
  rw [dif_pos hv]
  rfl

/-- Lowering a character never yields an uppercase ASCII letter. -/
theorem isUpperAscii_toLower (c : Char) : isUpperAscii (Char.toLower c) = false := by
  by_cases h : 65 ≤ c.toNat ∧ c.toNat ≤ 90
  · have ht := toNat_toLower_of_upper h.1 h.2
    simp only [isUpperAscii, ht, Bool.and_eq_false_iff, decide_eq_false_iff_not]
    omega
  · have hfix : Char.toLower c = c := by
      unfold Char.toLower
      rw [if_neg h]
    rw [hfix]
    simp only [isUpperAscii, Bool.and_eq_false_iff, decide_eq_false_iff_not]
    omega

/-- A successful literal match leaves a sublist of the input. -/
theorem matchLit_sublist : ∀ (p s r : List Char), matchLit p s = some r → List.Sublist r s := by
  intro p
  induction p with
  | nil =>
    intro s r h
    injection h with h
    subst h
    exact List.Sublist.refl s
  | cons a ps ih =>
    intro s r h
    cases s with
    | nil => simp [matchLit] at h
    | cons c cs =>
      unfold matchLit at h
      by_cases hac : a = c
      · rw [if_pos hac] at h
        exact (ih cs r h).trans (List.sublist_cons_self c cs)
      · rw [if_neg hac] at h
        exact absurd h (by simp)

/-- Characters captured at a fixed position come from the input there. -/
theorem addrCapture_mem (s cap : List Char) (h : addrCapture s = some cap) :
    ∀ c ∈ cap, c ∈ s := by
  unfold addrCapture at h
  simp only [List.span_eq_take_drop] at h
  have hl1 : List.takeWhile (fun c => c ≠ '\n') s ⊆ s := (List.takeWhile_sublist _).subset
  split at h
  · exact absurd h (by simp)
  · split at h
    · rename_i r5 heq
      have hr5 : ('\n' :: r5) ⊆ s := by
        rw [← heq]
        exact (List.dropWhile_sublist _).subset
      split at h
      · injection h with h
        subst h
        intro c hc
        exact hl1 hc
      · injection h with h
        subst h
        intro c hc
        rcases List.mem_append.mp hc with hc | hc
        · exact hl1 hc
        · rcases List.mem_cons.mp hc with rfl | hc
          · exact hr5 (List.mem_cons_self _ _)
          · exact hr5 (List.mem_cons_of_mem _ ((List.takeWhile_sublist _).subset hc))
    · injection h with h
      subst h
      intro c hc
      exact hl1 hc

/-- Characters captured by the backtracking separator-and-capture tail
come from the separator run or the input after it. -/
theorem addrTailBack_mem (S : List Char) :
    ∀ given rest cap : List Char, (∀ c ∈ given, c ∈ S) → (∀ c ∈ rest, c ∈ S) →
      addrTailBack given rest = some cap → ∀ c ∈ cap, c ∈ S := by
  intro given
  induction given with
  | nil =>
    intro rest cap _ hr h
    rw [show addrTailBack [] rest = addrCapture rest from rfl] at h
    exact fun c hcc => hr c (addrCapture_mem rest _ h c hcc)
  | cons g1 gs ih =>
    intro rest cap hg hr h
    cases gs with
    | nil =>
      rw [show addrTailBack [g1] rest = addrCapture rest from rfl] at h
      exact fun c hcc => hr c (addrCapture_mem rest _ h c hcc)
    | cons g2 gs' =>
      rw [show addrTailBack (g1 :: g2 :: gs') rest
          = (match addrCapture rest with
             | some cap => some cap
             | Option.none => addrTailBack (g2 :: gs') (g1 :: rest)) from rfl] at h
      cases hc : addrCapture rest with
      | some cap' =>
        rw [hc] at h
        injection h with h
        subst h
        exact fun c hcc => hr c (addrCapture_mem rest _ hc c hcc)
      | none =>
        rw [hc] at h
        dsimp only at h
        refine ih (g1 :: rest) cap (fun c hcc => hg c (List.mem_cons_of_mem g1 hcc)) ?_ h
        intro c hcc
        rcases List.mem_cons.mp hcc with rfl | hcc
        · exact hg c (List.mem_cons_self _ _)
        · exact hr c hcc

/-- Characters captured by the address-pattern tail come from its
input. -/
theorem matchAddrTail_mem (s cap : List Char) (h : matchAddrTail s = some cap) :
    ∀ c ∈ cap, c ∈ s := by
  unfold matchAddrTail at h
  simp only [List.span_eq_take_drop] at h
  split at h
  · exact absurd h (by simp)
  · refine addrTailBack_mem s _ _ cap ?_ ?_ h
    · intro c hcc
      rw [List.mem_reverse] at hcc
      exact (List.takeWhile_sublist _).subset hcc
    · exact fun c hcc => (List.dropWhile_sublist _).subset hcc

/-- Characters captured by the address pattern come from its input. -/
theorem matchAddrAt_mem (s cap : List Char) (h : matchAddrAt s = some cap) :
    ∀ c ∈ cap, c ∈ s := by
  unfold matchAddrAt at h
  cases hp : matchLit "property".data s with
  | none =>
    rw [hp] at h
    exact absurd h (by simp)
  | some r1 =>
    rw [hp] at h
    have hr1 : r1 ⊆ s := (matchLit_sublist _ _ _ hp).subset
    dsimp only at h
    simp only [List.span_eq_take_drop] at h
    split at h
    · rename_i cap0 heq
      injection h with h
      subst h
      split at heq
      · exact absurd heq (by simp)
      · split at heq
        · rename_i rb hlit
          have hra : List.dropWhile pySpace r1 ⊆ s :=
            fun c hc => hr1 ((List.dropWhile_sublist _).subset hc)
          have hrb : rb ⊆ s :=
            fun c hc => hra ((matchLit_sublist _ _ _ hlit).subset hc)
          intro c hc
          exact hrb (matchAddrTail_mem _ _ heq c hc)
        · exact absurd heq (by simp)
    · intro c hc
      exact hr1 (matchAddrTail_mem _ _ h c hc)

/-- Characters captured by a leftmost search come from the searched
text. -/
theorem reSearch_mem (m : List Char → Option (List Char))
    (hm : ∀ s cap, m s = some cap → ∀ c ∈ cap, c ∈ s) :
    ∀ l cap, reSearch m l = some cap → ∀ c ∈ cap, c ∈ l := by
  intro l
  induction l with
  | nil => exact fun cap h c hc => hm [] cap h c hc
  | cons a t ih =>
    intro cap h c hc
    unfold reSearch at h
    cases hma : m (a :: t) with
    | some r =>
      rw [hma] at h
      injection h with h
      subst h
      exact hm _ _ hma c hc
    | none =>
      rw [hma] at h
      exact List.mem_cons_of_mem a (ih cap h c hc)

/-- Stripping keeps only characters of the input. -/
theorem pyStrip_subset (l : List Char) : pyStrip l ⊆ l := by
  intro c hc
  unfold pyStrip at hc
  rw [List.mem_reverse] at hc
  have hc2 := (List.dropWhile_sublist _).subset hc
  rw [List.mem_reverse] at hc2
  exact (List.dropWhile_sublist _).subset hc2

/-- The claim C10 theorem.  An address recovered through the free-text
pattern is a stripped capture out of the lowered `ocr_text` and therefore
contains no uppercase ASCII letter, while an address taken from the
vendor record — or, when the vendor yields none, from the bill-to
record — is returned verbatim, casing preserved. -/
theorem C10_address_casing (r : DocumentResponse) :
    (∀ a, vendorAddr r.vendor = Option.none → vendorAddr r.bill_to = Option.none →
        extract_property_address r = some a →
        a.data.all (fun c => ! isUpperAscii c) = true) ∧
    (∀ v a, r.vendor = some v → v.address = some a → a ≠ "" →
        extract_property_address r = some a) ∧
    (∀ v a, vendorAddr r.vendor = Option.none → r.bill_to = some v →
        v.address = some a → a ≠ "" →
        extract_property_address r = some a) := by
  refine ⟨?_, ?_, ?_⟩
  · intro a h1 h2 hext
    unfold extract_property_address at hext
    rw [h1, h2] at hext
    dsimp only at hext
    rcases Option.map_eq_some'.mp hext with ⟨cap, hcap, rfl⟩
    rw [List.all_eq_true]
    intro c hc
    have hc1 : c ∈ cap := pyStrip_subset cap hc
    have hc2 : c ∈ pyLower r.ocr_text.data :=
      reSearch_mem matchAddrAt matchAddrAt_mem _ cap hcap c hc1
    rcases List.mem_map.mp hc2 with ⟨d, _, rfl⟩
    rw [isUpperAscii_toLower]
    rfl
  · intro v a hv ha hne
    unfold extract_property_address vendorAddr
    rw [hv]
    dsimp only
    rw [ha]
    dsimp only
    rw [if_neg hne]
  · intro v a hven hb ha hne
    unfold extract_property_address
    rw [hven]
    dsimp only
    unfold vendorAddr
    rw [hb]
    dsimp only
    rw [ha]
    dsimp only
    rw [if_neg hne]

/-- Witness for C10: the pattern-path result on mixed-case text is fully
lowercase, and the vendor-path and bill-to-path addresses are returned
with their casing preserved. -/
theorem C10_witness :
    ("123 main st" : String).data.all (fun c => ! isUpperAscii c) = true ∧
      extract_property_address vendorAddrResponse = some "456 Bank St, Finance City" ∧
      extract_property_address billToAddrResponse = some "789 Oak Ave, Suite 5" :=
  ⟨(C10_address_casing textAddrResponse).1 "123 main st" (by decide) (by decide) (by decide),
   (C10_address_casing vendorAddrResponse).2.1
     { name := some "Test Mortgage Co.", address := some "456 Bank St, Finance City" }
     "456 Bank St, Finance City" rfl rfl (by decide),
   (C10_address_casing billToAddrResponse).2.2
     { name := Option.none, address := some "789 Oak Ave, Suite 5" }
     "789 Oak Ave, Suite 5" rfl rfl rfl (by decide)⟩

/-- Appending strings appends their character lists. -/
theorem strData_append (s t : String) : (s ++ t).data = s.data ++ t.data := by
  cases s
  cases t
  rfl

/-- A list that can neither extend nor be extended by `l` is not a prefix
of `l ++ s`. -/
theorem not_prefix_append (n l s : List Char)
    (h1 : ¬ n <+: l) (h2 : ¬ l <+: n) : ¬ n <+: (l ++ s) := by
  intro h
  rcases List.prefix_or_prefix_of_prefix h (List.prefix_append l s) with h' | h'
  · exact h1 h'
  · exact h2 h'

/-- Prefix refutation for an output line `label ++ s ++ tail` from
incompatibility with the label alone. -/
theorem not_prefix_line {pre : List Char} {label s tail : String}
    (h1 : ¬ pre <+: label.data) (h2 : ¬ label.data <+: pre) :
    ¬ pre <+: (label ++ s ++ tail).data := by
  have hd : (label ++ s ++ tail).data = label.data ++ (s.data ++ tail.data) := by
    rw [strData_append, strData_append, List.append_assoc]
  rw [hd]
  exact not_prefix_append _ _ _ h1 h2

/-- A member of a list of output pieces is an infix of their
concatenation. -/
theorem mem_strConcat_infix {p : String} {l : List String} (hp : p ∈ l) :
    p.data <:+: (strConcat l).data := by
  induction l with
  | nil => simp at hp
  | cons a t ih =>
    show p.data <:+: (a ++ strConcat t).data
    rw [strData_append]
    rcases List.mem_cons.mp hp with rfl | hp
    · exact (List.prefix_append p.data (strConcat t).data).isInfix
    · rcases ih hp with ⟨u, v, huv⟩
      exact ⟨a.data ++ u, v, by rw [← huv]; simp⟩

/-- Members of the dated-facts fold are lines of truthy entries. -/
theorem mem_dateFold (l : List (String × Option String)) (p : String)
    (hp : p ∈ l.foldr (fun q acc =>
      (match q.2 with
       | some s => if s = "" then [] else [dateLine q.1 s]
       | Option.none => []) ++ acc) []) :
    ∃ k v, (k, some v) ∈ l ∧ v ≠ "" ∧ p = dateLine k v := by
  induction l with
  | nil => simp at hp
  | cons q t ih =>
    rw [List.foldr_cons] at hp
    rcases List.mem_append.mp hp with hp | hp
    · rcases hq : q.2 with _ | v
      · rw [hq] at hp
        simp at hp
      · rw [hq] at hp
        dsimp only at hp
        by_cases hv : v = ""
        · rw [if_pos hv] at hp
          simp at hp
        · rw [if_neg hv] at hp
          rcases List.mem_singleton.mp hp with rfl
          refine ⟨q.1, v, ?_, hv, rfl⟩
          rw [show (q.1, some v) = q from Prod.ext rfl hq.symm]
          exact List.mem_cons_self q t
    · rcases ih hp with ⟨k, v, hm, hv, rfl⟩
      exact ⟨k, v, List.mem_cons_of_mem q hm, hv, rfl⟩

/-- Inventory of the output pieces: every member of `outputParts` is the
header, a labelled line of a present truthy field, the dated-facts
header, a dated-facts line of a truthy entry, or the confidence line. -/
theorem parts_inventory (m : MortgageRecord) (ps : List String) (p : String)
    (hps : outputParts m = some ps) (hp : p ∈ ps) :
    p = "=== Mortgage Statement Summary ===\n\n" ∨
    (∃ s, m.parsed_fields.lender_name = some s ∧ s ≠ "" ∧ p = "Lender: " ++ s ++ "\n") ∨
    (∃ d, m.parsed_fields.loan_amount = PyVal.num d ∧ d.truthy = true ∧
      p = "Original Loan Amount: $" ++ fmtCurrency d ++ "\n") ∨
    (∃ d, m.parsed_fields.outstanding_balance = some d ∧ d.truthy = true ∧
      p = "Outstanding Balance: $" ++ fmtCurrency d ++ "\n") ∨
    (∃ d, m.parsed_fields.apr = some d ∧ d.truthy = true ∧
      p = "APR: " ++ pyStrFloat d ++ "%\n") ∨
    (∃ s, m.parsed_fields.loan_terms = some s ∧ s ≠ "" ∧ p = "Loan Terms: " ++ s ++ "\n") ∨
    (∃ s, m.parsed_fields.property_address = some s ∧ s ≠ "" ∧
      p = "Property Address: " ++ s ++ "\n") ∨
    (∃ d, m.parsed_fields.payment_amount = some d ∧ d.truthy = true ∧
      p = "Payment Amount: $" ++ fmtCurrency d ++ "\n") ∨
    (m.parsed_fields.dates ≠ [] ∧ p = "\n=== Important Dates ===\n") ∨
    (∃ k v, (k, some v) ∈ m.parsed_fields.dates ∧ v ≠ "" ∧ p = dateLine k v) ∨
    (∃ d, m.confidence_score = some d ∧ d.truthy = true ∧
      p = "\nConfidence Score: " ++ pyStrFloat d ++ "\n") := by
  unfold outputParts at hps
  rcases Option.map_eq_some'.mp hps with ⟨la, hla, rfl⟩
  rcases List.mem_cons.mp hp with rfl | hp
  · exact Or.inl rfl
  rcases List.mem_append.mp hp with hp | hp
  rotate_left
  · -- confidence segment
    rcases hc : m.confidence_score with _ | d <;> rw [hc] at hp
    · simp [segConf] at hp
    · unfold segConf at hp
      by_cases ht : d.truthy <;> simp [ht] at hp
      subst hp
      exact Or.inr (Or.inr (Or.inr (Or.inr (Or.inr (Or.inr (Or.inr (Or.inr (Or.inr
        (Or.inr ⟨d, rfl, ht, rfl⟩)))))))))
  rcases List.mem_append.mp hp with hp | hp
  rotate_left
  · -- dates segment
    unfold segDates at hp
    by_cases hemp : m.parsed_fields.dates.isEmpty
    · rw [if_pos hemp] at hp
      simp at hp
    · rw [if_neg hemp] at hp
      rcases List.mem_cons.mp hp with rfl | hp
      · refine Or.inr (Or.inr (Or.inr (Or.inr (Or.inr (Or.inr (Or.inr (Or.inr
          (Or.inl ⟨?_, rfl⟩))))))))
        intro h
        rw [h] at hemp
        exact hemp rfl
      · rcases mem_dateFold _ _ hp with ⟨k, v, hm, hv, rfl⟩
        exact Or.inr (Or.inr (Or.inr (Or.inr (Or.inr (Or.inr (Or.inr (Or.inr (Or.inr
          (Or.inl ⟨k, v, hm, hv, rfl⟩)))))))))
  rcases List.mem_append.mp hp with hp | hp
  rotate_left
  · -- payment segment
    rcases hc : m.parsed_fields.payment_amount with _ | d <;> rw [hc] at hp
    · simp [segCur] at hp
    · unfold segCur at hp
      by_cases ht : d.truthy <;> simp [ht] at hp
      subst hp
      exact Or.inr (Or.inr (Or.inr (Or.inr (Or.inr (Or.inr (Or.inr
        (Or.inl ⟨d, rfl, ht, rfl⟩)))))))
  rcases List.mem_append.mp hp with hp | hp
  rotate_left
  · -- property address segment
    rcases hc : m.parsed_fields.property_address with _ | s <;> rw [hc] at hp
    · simp [segStr] at hp
    · unfold segStr at hp
      by_cases hs : s = "" <;> simp [hs] at hp
      subst hp
      exact Or.inr (Or.inr (Or.inr (Or.inr (Or.inr (Or.inr
        (Or.inl ⟨s, rfl, hs, rfl⟩))))))
  rcases List.mem_append.mp hp with hp | hp
  rotate_left
  · -- loan terms segment
    rcases hc : m.parsed_fields.loan_terms with _ | s <;> rw [hc] at hp
    · simp [segStr] at hp
    · unfold segStr at hp
      by_cases hs : s = "" <;> simp [hs] at hp
      subst hp
      exact Or.inr (Or.inr (Or.inr (Or.inr (Or.inr (Or.inl ⟨s, rfl, hs, rfl⟩)))))
  rcases List.mem_append.mp hp with hp | hp
  rotate_left
  · -- apr segment
    rcases hc : m.parsed_fields.apr with _ | d <;> rw [hc] at hp
    · simp [segApr] at hp
    · unfold segApr at hp
      by_cases ht : d.truthy <;> simp [ht] at hp
      subst hp
      exact Or.inr (Or.inr (Or.inr (Or.inr (Or.inl ⟨d, rfl, ht, rfl⟩))))
  rcases List.mem_append.mp hp with hp | hp
  rotate_left
  · -- outstanding balance segment
    rcases hc : m.parsed_fields.outstanding_balance with _ | d <;> rw [hc] at hp
    · simp [segCur] at hp
    · unfold segCur at hp
      by_cases ht : d.truthy <;> simp [ht] at hp
      subst hp
      exact Or.inr (Or.inr (Or.inr (Or.inl ⟨d, rfl, ht, rfl⟩)))
  rcases List.mem_append.mp hp with hp | hp
  · -- lender segment
    rcases hc : m.parsed_fields.lender_name with _ | s <;> rw [hc] at hp
    · simp [segStr] at hp
    · unfold segStr at hp
      by_cases hs : s = "" <;> simp [hs] at hp
      subst hp
      exact Or.inr (Or.inl ⟨s, rfl, hs, rfl⟩)
  · -- loan amount segment
    rcases hv : m.parsed_fields.loan_amount with _ | d | s <;> rw [hv] at hla
    · injection hla with hla
      subst hla
      simp at hp
    · injection hla with hla
      subst hla
      by_cases ht : d.truthy <;> simp [ht] at hp
      subst hp
      exact Or.inr (Or.inr (Or.inl ⟨d, rfl, ht, rfl⟩))
    · dsimp only [segLoanAmount] at hla
      by_cases hs : s = ""
      · rw [if_pos hs] at hla
        injection hla with hla
        subst hla
        simp at hp
      · rw [if_neg hs] at hla
        exact absurd hla (by simp)

/-- A truthy date entry contributes its line to the dated-facts fold. -/
theorem dateFold_mem (l : List (String × Option String)) (k v : String)
    (hm : (k, some v) ∈ l) (hv : v ≠ "") :
    dateLine k v ∈ l.foldr (fun q acc =>
      (match q.2 with
       | some s => if s = "" then [] else [dateLine q.1 s]
       | Option.none => []) ++ acc) [] := by
  induction l with
  | nil => cases hm
  | cons q t ih =>
    rw [List.foldr_cons]
    rcases List.mem_cons.mp hm with rfl | hm
    · refine List.mem_append_left _ ?_
      dsimp only
      rw [if_neg hv]
      exact List.mem_singleton.mpr rfl
    · exact List.mem_append_right _ (ih hm)

/-- The claim C8 theorem, amended.  `format_output` (when it returns — a
truthy string loan amount makes the Python format call raise) emits one
labelled line for every present truthy field and a dated-facts line for
every present truthy date entry; it emits no line labelled with an absent
or falsy field's label (for records whose date keys are the four standard
ones); currency values render with two decimals and thousands separators
and the APR renders as the bare number followed by `%` — concretely,
`350000.0` renders as `"350,000.00"` and `3.75` as `"3.75"`. -/
theorem C8_amended_render (m : MortgageRecord) (out : String)
    (hout : format_output m = some out)
    (hkeys : ∀ q ∈ m.parsed_fields.dates, q.1 ∈ stdDateKeys) :
    (∀ s, m.parsed_fields.lender_name = some s → s ≠ "" →
        ("Lender: " ++ s ++ "\n").data <:+: out.data) ∧
    (∀ d, m.parsed_fields.loan_amount = PyVal.num d → d.truthy = true →
        ("Original Loan Amount: $" ++ fmtCurrency d ++ "\n").data <:+: out.data) ∧
    (∀ d, m.parsed_fields.outstanding_balance = some d → d.truthy = true →
        ("Outstanding Balance: $" ++ fmtCurrency d ++ "\n").data <:+: out.data) ∧
    (∀ d, m.parsed_fields.apr = some d → d.truthy = true →
        ("APR: " ++ pyStrFloat d ++ "%\n").data <:+: out.data) ∧
    (∀ s, m.parsed_fields.loan_terms = some s → s ≠ "" →
        ("Loan Terms: " ++ s ++ "\n").data <:+: out.data) ∧
    (∀ s, m.parsed_fields.property_address = some s → s ≠ "" →
        ("Property Address: " ++ s ++ "\n").data <:+: out.data) ∧
    (∀ d, m.parsed_fields.payment_amount = some d → d.truthy = true →
        ("Payment Amount: $" ++ fmtCurrency d ++ "\n").data <:+: out.data) ∧
    (∀ k v, (k, some v) ∈ m.parsed_fields.dates → v ≠ "" →
        (dateLine k v).data <:+: out.data) ∧
    (∀ d, m.confidence_score = some d → d.truthy = true →
        ("\nConfidence Score: " ++ pyStrFloat d ++ "\n").data <:+: out.data) ∧
    (optStrTruthy m.parsed_fields.lender_name = false → absentLabel m "Lender: ") ∧
    (m.parsed_fields.loan_amount.truthy = false →
      absentLabel m "Original Loan Amount: ") ∧
    (optFloatTruthy m.parsed_fields.outstanding_balance = false →
      absentLabel m "Outstanding Balance: ") ∧
    (optFloatTruthy m.parsed_fields.apr = false → absentLabel m "APR: ") ∧
    (optStrTruthy m.parsed_fields.loan_terms = false → absentLabel m "Loan Terms: ") ∧
    (optStrTruthy m.parsed_fields.property_address = false →
      absentLabel m "Property Address: ") ∧
    (optFloatTruthy m.parsed_fields.payment_amount = false →
      absentLabel m "Payment Amount: ") ∧
    (∀ k, k ∈ stdDateKeys →
      (∀ v, (k, v) ∈ m.parsed_fields.dates → optStrTruthy v = false) →
      absentLabel m (String.mk (pyTitle (k.data.map
        (fun c => if c = '_' then ' ' else c))) ++ ": ")) ∧
    (optFloatTruthy m.confidence_score = false →
      absentLabel m "\nConfidence Score: ") ∧
    fmtCurrency ⟨350000, 0⟩ = "350,000.00" ∧ pyStrFloat ⟨375, 2⟩ = "3.75" := by
  unfold format_output at hout
  rcases Option.map_eq_some'.mp hout with ⟨ps0, hps0, rfl⟩
  have hinv := fun p hp => parts_inventory m ps0 p hps0 hp
  unfold outputParts at hps0
  rcases Option.map_eq_some'.mp hps0 with ⟨la, hla, rfl⟩
  refine ⟨?_, ?_, ?_, ?_, ?_, ?_, ?_, ?_, ?_, ?_, ?_, ?_, ?_, ?_, ?_, ?_, ?_, ?_,
    by decide, by decide⟩
  · intro s hs hsne
    refine mem_strConcat_infix (List.mem_cons_of_mem _ ?_)
    refine List.mem_append_left _ (List.mem_append_left _ (List.mem_append_left _
      (List.mem_append_left _ (List.mem_append_left _ (List.mem_append_left _
        (List.mem_append_left _ (List.mem_append_left _ ?_)))))))
    rw [hs]
    simp [segStr, hsne]
  · intro d hd hdt
    rw [hd] at hla
    dsimp only [segLoanAmount] at hla
    injection hla with hla
    refine mem_strConcat_infix (List.mem_cons_of_mem _ ?_)
    refine List.mem_append_left _ (List.mem_append_left _ (List.mem_append_left _
      (List.mem_append_left _ (List.mem_append_left _ (List.mem_append_left _
        (List.mem_append_left _ (List.mem_append_right _ ?_)))))))
    rw [← hla]
    simp [hdt]
  · intro d hd hdt
    refine mem_strConcat_infix (List.mem_cons_of_mem _ ?_)
    refine List.mem_append_left _ (List.mem_append_left _ (List.mem_append_left _
      (List.mem_append_left _ (List.mem_append_left _ (List.mem_append_left _
        (List.mem_append_right _ ?_))))))
    rw [hd]
    simp [segCur, hdt]
  · intro d hd hdt
    refine mem_strConcat_infix (List.mem_cons_of_mem _ ?_)
    refine List.mem_append_left _ (List.mem_append_left _ (List.mem_append_left _
      (List.mem_append_left _ (List.mem_append_left _ (List.mem_append_right _ ?_)))))
    rw [hd]
    simp [segApr, hdt]
  · intro s hs hsne
    refine mem_strConcat_infix (List.mem_cons_of_mem _ ?_)
    refine List.mem_append_left _ (List.mem_append_left _ (List.mem_append_left _
      (List.mem_append_left _ (List.mem_append_right _ ?_))))
    rw [hs]
    simp [segStr, hsne]
  · intro s hs hsne
    refine mem_strConcat_infix (List.mem_cons_of_mem _ ?_)
    refine List.mem_append_left _ (List.mem_append_left _ (List.mem_append_left _
      (List.mem_append_right _ ?_)))
    rw [hs]
    simp [segStr, hsne]
  · intro d hd hdt
    refine mem_strConcat_infix (List.mem_cons_of_mem _ ?_)
    refine List.mem_append_left _ (List.mem_append_left _ (List.mem_append_right _ ?_))
    rw [hd]
    simp [segCur, hdt]
  · intro k v hm hv
    have hne : m.parsed_fields.dates ≠ [] := by
      intro h
      rw [h] at hm
      cases hm
    refine mem_strConcat_infix (List.mem_cons_of_mem _ ?_)
    refine List.mem_append_left _ (List.mem_append_right _ ?_)
    unfold segDates
    rw [if_neg (fun hcond => hne (List.isEmpty_iff.mp hcond))]
    exact List.mem_cons_of_mem _ (dateFold_mem _ k v hm hv)
  · intro d hd hdt
    refine mem_strConcat_infix (List.mem_cons_of_mem _ ?_)
    refine List.mem_append_right _ ?_
    rw [hd]
    simp [segConf, hdt]
  · intro hf ps p hps hp hpre
    rcases parts_inventory m ps p hps hp with rfl | ⟨s', hs', hsn', rfl⟩ |
      ⟨d', hd', hdt', rfl⟩ | ⟨d', hd', hdt', rfl⟩ | ⟨d', hd', hdt', rfl⟩ |
      ⟨s', hs', hsn', rfl⟩ | ⟨s', hs', hsn', rfl⟩ | ⟨d', hd', hdt', rfl⟩ |
      ⟨hne', rfl⟩ | ⟨k', v', hm', hv', rfl⟩ | ⟨d', hd', hdt', rfl⟩
    all_goals try exact absurd hpre (by decide)
    all_goals try (rw [hs'] at hf; simp [optStrTruthy] at hf; exact hsn' hf)
    all_goals try exact absurd hpre (not_prefix_line (by decide) (by decide))
    all_goals unfold dateLine at hpre
    all_goals
      (have hk := hkeys _ hm'
       simp only [stdDateKeys, List.mem_cons, List.not_mem_nil, or_false] at hk
       rcases hk with rfl | rfl | rfl | rfl <;>
         exact absurd hpre (not_prefix_line (by decide) (by decide)))
  · intro hf ps p hps hp hpre
    rcases parts_inventory m ps p hps hp with rfl | ⟨s', hs', hsn', rfl⟩ |
      ⟨d', hd', hdt', rfl⟩ | ⟨d', hd', hdt', rfl⟩ | ⟨d', hd', hdt', rfl⟩ |
      ⟨s', hs', hsn', rfl⟩ | ⟨s', hs', hsn', rfl⟩ | ⟨d', hd', hdt', rfl⟩ |
      ⟨hne', rfl⟩ | ⟨k', v', hm', hv', rfl⟩ | ⟨d', hd', hdt', rfl⟩
    all_goals try exact absurd hpre (by decide)
    all_goals try (rw [hd'] at hf; simp [PyVal.truthy, hdt'] at hf)
    all_goals try exact absurd hpre (not_prefix_line (by decide) (by decide))
    all_goals unfold dateLine at hpre
    all_goals
      (have hk := hkeys _ hm'
       simp only [stdDateKeys, List.mem_cons, List.not_mem_nil, or_false] at hk
       rcases hk with rfl | rfl | rfl | rfl <;>
         exact absurd hpre (not_prefix_line (by decide) (by decide)))
  · intro hf ps p hps hp hpre
    rcases parts_inventory m ps p hps hp with rfl | ⟨s', hs', hsn', rfl⟩ |
      ⟨d', hd', hdt', rfl⟩ | ⟨d', hd', hdt', rfl⟩ | ⟨d', hd', hdt', rfl⟩ |
      ⟨s', hs', hsn', rfl⟩ | ⟨s', hs', hsn', rfl⟩ | ⟨d', hd', hdt', rfl⟩ |
      ⟨hne', rfl⟩ | ⟨k', v', hm', hv', rfl⟩ | ⟨d', hd', hdt', rfl⟩
    all_goals try exact absurd hpre (by decide)
    all_goals try (rw [hd'] at hf; simp [optFloatTruthy, hdt'] at hf)
    all_goals try exact absurd hpre (not_prefix_line (by decide) (by decide))
    all_goals unfold dateLine at hpre
    all_goals
      (have hk := hkeys _ hm'
       simp only [stdDateKeys, List.mem_cons, List.not_mem_nil, or_false] at hk
       rcases hk with rfl | rfl | rfl | rfl <;>
         exact absurd hpre (not_prefix_line (by decide) (by decide)))
  · intro hf ps p hps hp hpre
    rcases parts_inventory m ps p hps hp with rfl | ⟨s', hs', hsn', rfl⟩ |
      ⟨d', hd', hdt', rfl⟩ | ⟨d', hd', hdt', rfl⟩ | ⟨d', hd', hdt', rfl⟩ |
      ⟨s', hs', hsn', rfl⟩ | ⟨s', hs', hsn', rfl⟩ | ⟨d', hd', hdt', rfl⟩ |
      ⟨hne', rfl⟩ | ⟨k', v', hm', hv', rfl⟩ | ⟨d', hd', hdt', rfl⟩
    all_goals try exact absurd hpre (by decide)
    all_goals try (rw [hd'] at hf; simp [optFloatTruthy, hdt'] at hf)
    all_goals try exact absurd hpre (not_prefix_line (by decide) (by decide))
    all_goals unfold dateLine at hpre
    all_goals
      (have hk := hkeys _ hm'
       simp only [stdDateKeys, List.mem_cons, List.not_mem_nil, or_false] at hk
       rcases hk with rfl | rfl | rfl | rfl <;>
         exact absurd hpre (not_prefix_line (by decide) (by decide)))
  · intro hf ps p hps hp hpre
    rcases parts_inventory m ps p hps hp with rfl | ⟨s', hs', hsn', rfl⟩ |
      ⟨d', hd', hdt', rfl⟩ | ⟨d', hd', hdt', rfl⟩ | ⟨d', hd', hdt', rfl⟩ |
      ⟨s', hs', hsn', rfl⟩ | ⟨s', hs', hsn', rfl⟩ | ⟨d', hd', hdt', rfl⟩ |
      ⟨hne', rfl⟩ | ⟨k', v', hm', hv', rfl⟩ | ⟨d', hd', hdt', rfl⟩
    all_goals try exact absurd hpre (by decide)
    all_goals try (rw [hs'] at hf; simp [optStrTruthy] at hf; exact hsn' hf)
    all_goals try exact absurd hpre (not_prefix_line (by decide) (by decide))
    all_goals unfold dateLine at hpre
    all_goals
      (have hk := hkeys _ hm'
       simp only [stdDateKeys, List.mem_cons, List.not_mem_nil, or_false] at hk
       rcases hk with rfl | rfl | rfl | rfl <;>
         exact absurd hpre (not_prefix_line (by decide) (by decide)))
  · intro hf ps p hps hp hpre
    rcases parts_inventory m ps p hps hp with rfl | ⟨s', hs', hsn', rfl⟩ |
      ⟨d', hd', hdt', rfl⟩ | ⟨d', hd', hdt', rfl⟩ | ⟨d', hd', hdt', rfl⟩ |
      ⟨s', hs', hsn', rfl⟩ | ⟨s', hs', hsn', rfl⟩ | ⟨d', hd', hdt', rfl⟩ |
      ⟨hne', rfl⟩ | ⟨k', v', hm', hv', rfl⟩ | ⟨d', hd', hdt', rfl⟩
    all_goals try exact absurd hpre (by decide)
    all_goals try (rw [hs'] at hf; simp [optStrTruthy] at hf; exact hsn' hf)
    all_goals try exact absurd hpre (not_prefix_line (by decide) (by decide))
    all_goals unfold dateLine at hpre
    all_goals
      (have hk := hkeys _ hm'
       simp only [stdDateKeys, List.mem_cons, List.not_mem_nil, or_false] at hk
       rcases hk with rfl | rfl | rfl | rfl <;>
         exact absurd hpre (not_prefix_line (by decide) (by decide)))
  · intro hf ps p hps hp hpre
    rcases parts_inventory m ps p hps hp with rfl | ⟨s', hs', hsn', rfl⟩ |
      ⟨d', hd', hdt', rfl⟩ | ⟨d', hd', hdt', rfl⟩ | ⟨d', hd', hdt', rfl⟩ |
      ⟨s', hs', hsn', rfl⟩ | ⟨s', hs', hsn', rfl⟩ | ⟨d', hd', hdt', rfl⟩ |
      ⟨hne', rfl⟩ | ⟨k', v', hm', hv', rfl⟩ | ⟨d', hd', hdt', rfl⟩
    all_goals try exact absurd hpre (by decide)
    all_goals try (rw [hd'] at hf; simp [optFloatTruthy, hdt'] at hf)
    all_goals try exact absurd hpre (not_prefix_line (by decide) (by decide))
    all_goals unfold dateLine at hpre
    all_goals
      (have hk := hkeys _ hm'
       simp only [stdDateKeys, List.mem_cons, List.not_mem_nil, or_false] at hk
       rcases hk with rfl | rfl | rfl | rfl <;>
         exact absurd hpre (not_prefix_line (by decide) (by decide)))
  · intro k0 hk0 hf ps p hps hp hpre
    simp only [stdDateKeys, List.mem_cons, List.not_mem_nil, or_false] at hk0
    rcases parts_inventory m ps p hps hp with rfl | ⟨s', hs', hsn', rfl⟩ |
      ⟨d', hd', hdt', rfl⟩ | ⟨d', hd', hdt', rfl⟩ | ⟨d', hd', hdt', rfl⟩ |
      ⟨s', hs', hsn', rfl⟩ | ⟨s', hs', hsn', rfl⟩ | ⟨d', hd', hdt', rfl⟩ |
      ⟨hne', rfl⟩ | ⟨k', v', hm', hv', rfl⟩ | ⟨d', hd', hdt', rfl⟩
    all_goals rcases hk0 with rfl | rfl | rfl | rfl
    all_goals try exact absurd hpre (by decide)
    all_goals try exact absurd hpre (not_prefix_line (by decide) (by decide))
    all_goals unfold dateLine at hpre
    all_goals
      (have hk' := hkeys _ hm'
       simp only [stdDateKeys, List.mem_cons, List.not_mem_nil, or_false] at hk'
       rcases hk' with rfl | rfl | rfl | rfl)
    all_goals try exact absurd hpre (not_prefix_line (by decide) (by decide))
    all_goals
      (have hx := hf (some v') hm'
       simp only [optStrTruthy, ne_eq, decide_eq_false_iff_not, Decidable.not_not] at hx
       exact hv' hx)
  · intro hf ps p hps hp hpre
    rcases parts_inventory m ps p hps hp with rfl | ⟨s', hs', hsn', rfl⟩ |
      ⟨d', hd', hdt', rfl⟩ | ⟨d', hd', hdt', rfl⟩ | ⟨d', hd', hdt', rfl⟩ |
      ⟨s', hs', hsn', rfl⟩ | ⟨s', hs', hsn', rfl⟩ | ⟨d', hd', hdt', rfl⟩ |
      ⟨hne', rfl⟩ | ⟨k', v', hm', hv', rfl⟩ | ⟨d', hd', hdt', rfl⟩
    all_goals try exact absurd hpre (by decide)
    all_goals try (rw [hd'] at hf; simp [optFloatTruthy, hdt'] at hf)
    all_goals try exact absurd hpre (not_prefix_line (by decide) (by decide))
    all_goals unfold dateLine at hpre
    all_goals
      (have hk := hkeys _ hm'
       simp only [stdDateKeys, List.mem_cons, List.not_mem_nil, or_false] at hk
       rcases hk with rfl | rfl | rfl | rfl <;>
         exact absurd hpre (not_prefix_line (by decide) (by decide)))

/-- The claim C8 counterexample.  `format_output` checks truthiness, not
presence: a record with the present loan amount `0.0` renders with no
"Original Loan Amount" line at all (the output is the bare header), so
"a labeled line for every present field" fails. -/
theorem C8_counterexample :
    zeroLoanRecord.parsed_fields.loan_amount ≠ PyVal.none ∧
      format_output zeroLoanRecord = some "=== Mortgage Statement Summary ===\n\n" := by
  exact ⟨by decide, by decide⟩

/-- Witness for the amended C8 theorem: the record with
`loan_amount = 350000.0` and `apr = 3.75` renders the substrings
`"$350,000.00"` (inside its labelled line) and `"3.75%"`. -/
theorem C8_witness :
    ("Original Loan Amount: $" ++ fmtCurrency ⟨350000, 0⟩ ++ "\n").data <:+:
      "=== Mortgage Statement Summary ===\n\nOriginal Loan Amount: $350,000.00\nAPR: 3.75%\n".data ∧
    ("APR: " ++ pyStrFloat ⟨375, 2⟩ ++ "%\n").data <:+:
      "=== Mortgage Statement Summary ===\n\nOriginal Loan Amount: $350,000.00\nAPR: 3.75%\n".data := by
  have h := C8_amended_render fullRecord
    "=== Mortgage Statement Summary ===\n\nOriginal Loan Amount: $350,000.00\nAPR: 3.75%\n"
    (by decide) (by decide)
  exact ⟨h.2.1 ⟨350000, 0⟩ rfl (by decide), h.2.2.2.1 ⟨375, 2⟩ rfl (by decide)⟩
